import Mathlib

/-!
Verification development for the `ike` repository (an IKEv2 control-plane
engine written in Go).  The Go source is shallowly embedded: byte buffers
become `List Nat` (each element a byte value < 256), Go machine integers
become `Nat` with explicit `% 2^w` where Go arithmetic wraps, fallible code
returns `Except CodecErr`.  Go runtime panics (out-of-range slice
expressions, nil-interface method calls) are modelled by the distinguished
error `CodecErr.goPanic`; slice capacities are taken equal to slice lengths
(the decoder is invoked on exact buffers).  Loops that consume a strictly
positive number of bytes per iteration are written with an explicit fuel
argument; every entry point passes `length + 1`, which is larger than the
possible number of iterations, so the `fuelOut` branch is unreachable on the
inputs considered and the functions compute by `decide`/`rfl`.
-/

/-! ## Byte-order helpers (package `packets`: ReadB8/ReadB16/ReadB32, WriteB16/WriteB32) -/

/-- `packets.ReadB8`: read one byte at offset `i` (0 when out of range). -/
def readB8 (b : List Nat) (i : Nat) : Nat := b.getD i 0

/-- `packets.ReadB16`: big-endian 16-bit read at offset `i`. -/
def readB16 (b : List Nat) (i : Nat) : Nat := b.getD i 0 * 256 + b.getD (i+1) 0

/-- `packets.ReadB32`: big-endian 32-bit read at offset `i`. -/
def readB32 (b : List Nat) (i : Nat) : Nat :=
  ((b.getD i 0 * 256 + b.getD (i+1) 0) * 256 + b.getD (i+2) 0) * 256 + b.getD (i+3) 0

/-- `packets.WriteB16`: big-endian bytes of a 16-bit value. -/
def natB16 (n : Nat) : List Nat := [n / 256 % 256, n % 256]

/-- `packets.WriteB32`: big-endian bytes of a 32-bit value. -/
def natB32 (n : Nat) : List Nat :=
  [n / 16777216 % 256, n / 65536 % 256, n / 256 % 256, n % 256]

/-- `big.Int.SetBytes`: interpret a big-endian byte string as a natural number. -/
def bytesToNat (b : List Nat) : Nat := b.foldl (fun acc x => acc * 256 + x) 0

/-- Helper for `natBytes`; the fuel bounds the number of base-256 digits
(`n` itself is always enough). -/
def natBytesAux : Nat → Nat → List Nat
  | 0, _ => []
  | fuel+1, n => if n = 0 then [] else natBytesAux fuel (n / 256) ++ [n % 256]

/-- `big.Int.Bytes`: minimal big-endian byte string of a natural number
(empty for 0, no leading zero byte). -/
def natBytes (n : Nat) : List Nat := natBytesAux n n

/-! ## Error model -/

/-- Outcomes of fallible operations.  `syntaxError` is the Go value
`ERR_INVALID_SYNTAX`; `goPanic` marks a Go runtime panic (slice bounds,
nil-interface call); `fuelOut` is the unreachable fuel-exhaustion branch. -/
inductive CodecErr where
  | syntaxError       -- ERR_INVALID_SYNTAX
  | goPanic           -- runtime panic: slice out of range / nil interface
  | noTkm             -- "cant decrypt, no tkm found"
  | hmacVerifyFailed  -- "HMAC verify failed: "
  | notBlockMultiple  -- "ciphertext is not a multiple of the block size"
  | fuelOut           -- unreachable when fuel > iteration count
deriving DecidableEq, Repr

/-! ## Wire structures (protocol.go) -/

abbrev IKE_HEADER_LEN : Nat := 28

abbrev PAYLOAD_HEADER_LENGTH : Nat := 4

/-- `IkeHeader` (28 octets on the wire). -/
structure IkeHeader where
  SpiI : List Nat
  SpiR : List Nat
  NextPayload : Nat
  MajorVersion : Nat
  MinorVersion : Nat
  ExchangeType : Nat
  Flags : Nat
  MsgId : Nat
  MsgLength : Nat
deriving DecidableEq, Repr

/-- `DecodeIkeHeader`: reject buffers shorter than 28 and Length fields
below 28; otherwise parse the 28-octet header. -/
def DecodeIkeHeader (b : List Nat) : Except CodecErr IkeHeader :=
  if b.length < IKE_HEADER_LEN then .error .syntaxError
  else
    let h : IkeHeader :=
      { SpiI := b.take 8
        SpiR := (b.drop 8).take 8
        NextPayload := readB8 b 16
        MajorVersion := readB8 b 17 / 16
        MinorVersion := readB8 b 17 % 16
        ExchangeType := readB8 b 18
        Flags := readB8 b 19
        MsgId := readB32 b 20
        MsgLength := readB32 b 24 }
    if h.MsgLength < IKE_HEADER_LEN then .error .syntaxError
    else .ok h

/-- `IkeHeader.Encode`: 28 octets.  `copy` into the 8-byte SPI arrays is
modelled by take-and-zero-pad; byte 17 is `MajorVersion<<4|MinorVersion`
(for `MinorVersion < 16`, as produced by `DecodeIkeHeader`, the bitwise or
coincides with addition); the explicit `uint8`/`uint32` casts of the source
become `% 256` / `% 2^32` (the last via `natB32`). -/
def IkeHeader.Encode (h : IkeHeader) : List Nat :=
  (h.SpiI.take 8 ++ List.replicate (8 - h.SpiI.length) 0)
  ++ (h.SpiR.take 8 ++ List.replicate (8 - h.SpiR.length) 0)
  ++ [h.NextPayload % 256, (h.MajorVersion * 16 + h.MinorVersion) % 256,
      h.ExchangeType % 256, h.Flags % 256]
  ++ natB32 h.MsgId ++ natB32 h.MsgLength

/-- Generic payload header (4 octets). -/
structure PayloadHeader where
  NextPayload : Nat
  IsCritical : Bool
  PayloadLength : Nat
deriving DecidableEq, Repr

/-- `PayloadHeader.Decode`.  The source tests `c&0x80 == 1`, a comparison
that is never true (the masked value is 0 or 128), reproduced verbatim. -/
def PayloadHeader.Decode (b : List Nat) : Except CodecErr PayloadHeader :=
  if b.length < 4 then .error .syntaxError
  else .ok
    { NextPayload := readB8 b 0
      IsCritical := readB8 b 1 &&& 128 == 1
      PayloadLength := readB16 b 2 }

/-- `encodePayloadHeader`: the stored length is `plen+4` as `uint16`
(byte extraction in `natB16` already reduces modulo 2^16). -/
def encodePayloadHeader (pt : Nat) (plen : Nat) : List Nat :=
  pt % 256 :: 0 :: natB16 (plen + 4)

/-! ## SA payload substructures -/

/-- `Transform` (the Go field `Type` is spelled `TrType`, `Type` being a
Lean keyword). -/
structure Transform where
  TrType : Nat
  TransformId : Nat
  KeyLength : Nat
deriving DecidableEq, Repr

structure SaTransform where
  Transform : Transform
  IsLast : Bool
deriving DecidableEq, Repr

structure SaProposal where
  IsLast : Bool
  Number : Nat
  ProtocolId : Nat
  Spi : List Nat
  Transforms : List SaTransform
deriving DecidableEq, Repr

/-- `Selector` (the Go field `Type` is spelled `SelType`). -/
structure Selector where
  SelType : Nat
  IpProtocolId : Nat
  StartPort : Nat
  Endport : Nat
  StartAddress : List Nat
  EndAddress : List Nat
deriving DecidableEq, Repr

abbrev MIN_LEN_ATTRIBUTE : Nat := 4

abbrev MIN_LEN_TRANSFORM : Nat := 8

abbrev MIN_LEN_PROPOSAL : Nat := 8

abbrev MIN_LEN_SELECTOR : Nat := 8

/-- `decodeAttribute`: only KeyLength (type 14) is accepted, fixed 4 bytes.
Returns the attribute value and the number of bytes used. -/
def decodeAttribute (b : List Nat) : Except CodecErr (Nat × Nat) :=
  if b.length < MIN_LEN_ATTRIBUTE then .error .syntaxError
  else if readB16 b 0 &&& 32767 ≠ 14 then .error .syntaxError
  else .ok (readB16 b 2, 4)

/-- Attribute loop of `decodeTransform`: `for len(b) > 0`.  The map of
attributes keyed by type degenerates to last-written KeyLength value
(`decodeAttribute` only ever yields type 14); `acc` starts at the zero
value of `trans.KeyLength`. -/
def decodeAttributes : Nat → List Nat → Nat → Except CodecErr Nat
  | 0, _, _ => .error .fuelOut
  | fuel+1, b, acc =>
    if b.length = 0 then .ok acc
    else
      match decodeAttribute b with
      | .error e => .error e
      | .ok (v, used) => decodeAttributes fuel (b.drop used) v

/-- `decodeTransform`: returns the transform and `used = trLength`. -/
def decodeTransform (b : List Nat) : Except CodecErr (SaTransform × Nat) :=
  if b.length < MIN_LEN_TRANSFORM then .error .syntaxError
  else
    let isLast := readB8 b 0 == 0
    let trLength := readB16 b 2
    if b.length < trLength then .error .syntaxError
    else if trLength < MIN_LEN_TRANSFORM then .error .syntaxError
    else
      let inner := (b.take trLength).drop MIN_LEN_TRANSFORM
      match decodeAttributes (inner.length + 1) inner 0 with
      | .error e => .error e
      | .ok kl =>
        .ok ({ Transform := { TrType := readB8 b 4, TransformId := readB16 b 6,
                              KeyLength := kl },
               IsLast := isLast }, trLength)

/-- Transform loop of `decodeProposal`: append, then stop on `IsLast`
(error if bytes remain); natural exit on empty buffer. -/
def decodeTransformsLoop : Nat → List Nat → List SaTransform → Except CodecErr (List SaTransform)
  | 0, _, _ => .error .fuelOut
  | fuel+1, b, acc =>
    if b.length = 0 then .ok acc
    else
      match decodeTransform b with
      | .error e => .error e
      | .ok (tr, used) =>
        let b' := b.drop used
        if tr.IsLast then
          if b'.length > 0 then .error .syntaxError else .ok (acc ++ [tr])
        else decodeTransformsLoop fuel b' (acc ++ [tr])

/-- `decodeProposal`: returns the proposal and `used = propLength`.
`b[used:propLength]` with `used > propLength` is a Go slice-bounds panic. -/
def decodeProposal (b : List Nat) : Except CodecErr (SaProposal × Nat) :=
  if b.length < MIN_LEN_PROPOSAL then .error .syntaxError
  else
    let isLast := readB8 b 0 == 0
    let propLength := readB16 b 2
    if b.length < propLength then .error .syntaxError
    else if propLength < MIN_LEN_PROPOSAL then .error .syntaxError
    else
      let spiSize := readB8 b 6
      let numTransforms := readB8 b 7
      if b.length < MIN_LEN_PROPOSAL + spiSize then .error .syntaxError
      else if propLength < MIN_LEN_PROPOSAL + spiSize then .error .goPanic
      else
        let spi := (b.take (MIN_LEN_PROPOSAL + spiSize)).drop MIN_LEN_PROPOSAL
        let inner := (b.take propLength).drop (MIN_LEN_PROPOSAL + spiSize)
        match decodeTransformsLoop (inner.length + 1) inner [] with
        | .error e => .error e
        | .ok trs =>
          if trs.length ≠ numTransforms then .error .syntaxError
          else
            .ok ({ IsLast := isLast, Number := readB8 b 4, ProtocolId := readB8 b 5,
                   Spi := spi, Transforms := trs }, propLength)

/-- Proposal loop of `SaPayload.Decode`. -/
def decodeProposalsLoop : Nat → List Nat → List SaProposal → Except CodecErr (List SaProposal)
  | 0, _, _ => .error .fuelOut
  | fuel+1, b, acc =>
    if b.length = 0 then .ok acc
    else
      match decodeProposal b with
      | .error e => .error e
      | .ok (prop, used) =>
        let b' := b.drop used
        if prop.IsLast then
          if b'.length > 0 then .error .syntaxError else .ok (acc ++ [prop])
        else decodeProposalsLoop fuel b' (acc ++ [prop])

/-- `decodeSelector`: note that the source reads the ports at offsets 8 and
10 (inside the address area) while `encodeSelector` writes them at offsets
4 and 6; both reproduced verbatim.  `used = 8 + 2*iplen`. -/
def decodeSelector (b : List Nat) : Except CodecErr (Selector × Nat) :=
  if b.length < MIN_LEN_SELECTOR then .error .syntaxError
  else
    let stype := readB8 b 0
    let slen := readB16 b 2
    if b.length < slen then .error .syntaxError
    else
      let iplen := if stype == 8 then 16 else 4
      if b.length < 8 + 2 * iplen then .error .syntaxError
      else
        .ok ({ SelType := stype, IpProtocolId := readB8 b 1,
               StartPort := readB16 b 8, Endport := readB16 b 10,
               StartAddress := (b.take (8 + iplen)).drop 8,
               EndAddress := (b.take (8 + 2 * iplen)).drop (8 + iplen) },
             8 + 2 * iplen)

/-- Selector loop of `TrafficSelectorPayload.Decode`: the count-vs-numSel
check runs inside the loop body after every append, exactly as in the
source. -/
def decodeSelectorsLoop (numSel : Nat) : Nat → List Nat → List Selector → Except CodecErr (List Selector)
  | 0, _, _ => .error .fuelOut
  | fuel+1, b, acc =>
    if b.length = 0 then .ok acc
    else
      match decodeSelector b with
      | .error e => .error e
      | .ok (sel, used) =>
        let acc' := acc ++ [sel]
        if acc'.length ≠ numSel then .error .syntaxError
        else decodeSelectorsLoop numSel fuel (b.drop used) acc'

/-! ## Payloads -/

/-- The payload dialect, a tagged sum over the payload variants handled by
`Message.DecodePayloads`.  Every variant stores its decoded generic header.
`big.Int`-valued fields (`KeyData`, `Nonce`) become `Nat`. -/
inductive Payload where
  | sa (h : PayloadHeader) (Proposals : List SaProposal)
  | ke (h : PayloadHeader) (DhTransformId : Nat) (KeyData : Nat)
  | id (h : PayloadHeader) (idPayloadType : Nat) (IdType : Nat) (Data : List Nat)
  | cert (h : PayloadHeader)
  | certreq (h : PayloadHeader)
  | auth (h : PayloadHeader) (Method : Nat) (Data : List Nat)
  | nonce (h : PayloadHeader) (Nonce : Nat)
  | notify (h : PayloadHeader) (ProtocolId : Nat) (NotificationType : Nat)
      (Spi : List Nat) (Data : List Nat)
  | delete (h : PayloadHeader)
  | vendor (h : PayloadHeader)
  | ts (h : PayloadHeader) (tsPayloadType : Nat) (Selectors : List Selector)
  | cp (h : PayloadHeader)
  | eap (h : PayloadHeader)
deriving DecidableEq, Repr

/-- Each variant's `Type()` method (payload type registry values). -/
def Payload.typeOf : Payload → Nat
  | .sa .. => 33
  | .ke .. => 34
  | .id _ t _ _ => t
  | .cert .. => 37
  | .certreq .. => 38
  | .auth .. => 39
  | .nonce .. => 40
  | .notify .. => 41
  | .delete .. => 42
  | .vendor .. => 43
  | .ts _ t _ => t
  | .cp .. => 47
  | .eap .. => 48

/-- The generic header stored in a payload. -/
def Payload.header : Payload → PayloadHeader
  | .sa h _ => h
  | .ke h _ _ => h
  | .id h _ _ _ => h
  | .cert h => h
  | .certreq h => h
  | .auth h _ _ => h
  | .nonce h _ => h
  | .notify h _ _ _ _ => h
  | .delete h => h
  | .vendor h => h
  | .ts h _ _ => h
  | .cp h => h
  | .eap h => h

/-- `PayloadHeader.NextPayloadType()` as seen through a payload. -/
def Payload.NextPayloadType (p : Payload) : Nat := p.header.NextPayload

/-! ### Per-payload body decoders (body = bytes after the 4-byte generic header) -/

/-- `SaPayload.Decode`. -/
def SaPayload.DecodeBody (b : List Nat) : Except CodecErr (List SaProposal) :=
  decodeProposalsLoop (b.length + 1) b []

/-- `KePayload.Decode`: `b[4:]` is a Go panic for buffers shorter than 4. -/
def KePayload.DecodeBody (b : List Nat) : Except CodecErr (Nat × Nat) :=
  if b.length < 4 then .error .goPanic
  else .ok (readB16 b 0, bytesToNat (b.drop 4))

/-- `IdPayload.Decode`: `b[4:]` is a Go panic for buffers shorter than 4. -/
def IdPayload.DecodeBody (b : List Nat) : Except CodecErr (Nat × List Nat) :=
  if b.length < 4 then .error .goPanic
  else .ok (readB8 b 0, b.drop 4)

/-- `AuthPayload.Decode`: `b[4:]` is a Go panic for buffers shorter than 4. -/
def AuthPayload.DecodeBody (b : List Nat) : Except CodecErr (Nat × List Nat) :=
  if b.length < 4 then .error .goPanic
  else .ok (readB8 b 0, b.drop 4)

/-- `NoncePayload.Decode`: nonce data must be 16..256 octets; the value is
stored as a big integer (leading zero octets are not representable). -/
def NoncePayload.DecodeBody (b : List Nat) : Except CodecErr Nat :=
  if b.length < 16 ∨ b.length > 256 then .error .syntaxError
  else .ok (bytesToNat b)

/-- `NotifyPayload.Decode`. -/
def NotifyPayload.DecodeBody (b : List Nat) :
    Except CodecErr (Nat × Nat × List Nat × List Nat) :=
  if b.length < 4 then .error .syntaxError
  else
    let spiLen := readB8 b 1
    if b.length < 4 + spiLen then .error .syntaxError
    else
      .ok (readB8 b 0, readB16 b 2, (b.take (spiLen + 4)).drop 4, b.drop (spiLen + 4))

/-- `TrafficSelectorPayload.Decode`. -/
def TrafficSelectorPayload.DecodeBody (b : List Nat) : Except CodecErr (List Selector) :=
  if b.length < 4 then .error .syntaxError
  else decodeSelectorsLoop (readB8 b 0) (b.length + 1) (b.drop 4) []

/-- Payload types with an arm in the `Message.DecodePayloads` switch; for
any other type the `payload` interface variable stays nil and the later
`payload.Decode(pbuf)` call panics. -/
def payloadTypeKnown (np : Nat) : Bool :=
  np == 33 || np == 34 || np == 35 || np == 36 || np == 37 || np == 38 ||
  np == 39 || np == 40 || np == 41 || np == 42 || np == 43 || np == 44 ||
  np == 45 || np == 47 || np == 48

/-- Dispatch of `payload.Decode(pbuf)` on the payload type chosen by the
switch in `Message.DecodePayloads`; an unhandled type is the nil-interface
panic.  `CertPayload`/`CertRequestPayload`/`DeletePayload`/`VendorIdPayload`/
`ConfigurationPayload`/`EapPayload` decoders are TODO stubs in the source
returning nil. -/
def decodePayloadBody (np : Nat) (ph : PayloadHeader) (b : List Nat) :
    Except CodecErr Payload :=
  if np == 33 then (SaPayload.DecodeBody b).map (.sa ph)
  else if np == 34 then (KePayload.DecodeBody b).map (fun x => .ke ph x.1 x.2)
  else if np == 35 then (IdPayload.DecodeBody b).map (fun x => .id ph 35 x.1 x.2)
  else if np == 36 then (IdPayload.DecodeBody b).map (fun x => .id ph 36 x.1 x.2)
  else if np == 37 then .ok (.cert ph)
  else if np == 38 then .ok (.certreq ph)
  else if np == 39 then (AuthPayload.DecodeBody b).map (fun x => .auth ph x.1 x.2)
  else if np == 40 then (NoncePayload.DecodeBody b).map (.nonce ph)
  else if np == 41 then
    (NotifyPayload.DecodeBody b).map (fun x => .notify ph x.1 x.2.1 x.2.2.1 x.2.2.2)
  else if np == 42 then .ok (.delete ph)
  else if np == 43 then .ok (.vendor ph)
  else if np == 44 then (TrafficSelectorPayload.DecodeBody b).map (.ts ph 44)
  else if np == 45 then (TrafficSelectorPayload.DecodeBody b).map (.ts ph 45)
  else if np == 47 then .ok (.cp ph)
  else if np == 48 then .ok (.eap ph)
  else .error .goPanic

/-! ### The payload collection (`Payloads`) -/

/-- `Payloads`: a type-indexed map into an ordered array.  The Go
`map[PayloadType]int` is modelled as a function to `Option Nat`. -/
structure Payloads where
  Map : Nat → Option Nat
  Array : List Payload

/-- `makePayloads`. -/
def makePayloads : Payloads := { Map := fun _ => none, Array := [] }

/-- `Payloads.Get`: nil (`none`) when the type is absent.  (The Go indexing
`p.Array[idx]` would panic on an out-of-range index; under the collection's
invariant the index is always in range, and `get?` agrees with it there.) -/
def Payloads.Get (p : Payloads) (t : Nat) : Option Payload :=
  match p.Map t with
  | some idx => p.Array[idx]?
  | none => none

/-- `Payloads.Add`: replace in place when the type is present, append and
register the new index otherwise. -/
def Payloads.Add (p : Payloads) (t : Payload) : Payloads :=
  match p.Map t.typeOf with
  | some idx => { p with Array := p.Array.set idx t }
  | none =>
    { Map := fun u => if u = t.typeOf then some p.Array.length else p.Map u
      Array := p.Array ++ [t] }

/-- Folding `Add` over a decode-ordered payload list (the loop in
`Message.DecodePayloads` adds each decoded payload in turn). -/
def payloadsOfList (l : List Payload) : Payloads :=
  l.foldl Payloads.Add makePayloads

/-! ### The payload chain -/

/-- The payload-chain loop of `Message.DecodePayloads`: follow NextPayload
bytes until `PayloadTypeNone`, returning the decoded payloads in wire order
together with the unconsumed remainder (the source silently ignores
leftover bytes).  Go panics modelled: `b[:4]` on a buffer shorter than 4,
`b[4:PayloadLength]` with `PayloadLength < 4` or beyond the buffer, and the
nil-interface `payload.Decode` for an unhandled payload type. -/
def decodeChain : Nat → Nat → List Nat → Except CodecErr (List Payload × List Nat)
  | 0, _, _ => .error .fuelOut
  | fuel+1, nextPayload, b =>
    if nextPayload = 0 then .ok ([], b)
    else if b.length < PAYLOAD_HEADER_LENGTH then .error .goPanic
    else
      match PayloadHeader.Decode (b.take PAYLOAD_HEADER_LENGTH) with
      | .error e => .error e
      | .ok ph =>
        if ph.PayloadLength < PAYLOAD_HEADER_LENGTH ∨ b.length < ph.PayloadLength then
          .error .goPanic
        else
          match decodePayloadBody nextPayload ph
              ((b.take ph.PayloadLength).drop PAYLOAD_HEADER_LENGTH) with
          | .error e => .error e
          | .ok payload =>
            match decodeChain fuel ph.NextPayload (b.drop ph.PayloadLength) with
            | .error e => .error e
            | .ok (l, rest) => .ok (payload :: l, rest)

/-! ### Payload encoders -/

/-- `encodeTransform`: 8 fixed bytes, a KeyLength attribute appended only
when `KeyLength != 0`, and the final length written back at offset 2. -/
def encodeTransform (trans : SaTransform) (isLast : Bool) : List Nat :=
  let attr : List Nat :=
    if trans.Transform.KeyLength ≠ 0 then
      natB16 32782 ++ natB16 trans.Transform.KeyLength  -- 0x8000|14, value
    else []
  let total := MIN_LEN_TRANSFORM + attr.length
  [if isLast then 0 else 3, 0] ++ natB16 total ++
  [trans.Transform.TrType % 256, 0] ++ natB16 trans.Transform.TransformId ++ attr

/-- `encodeProposal`: note the source writes `prop.Number` (the `number`
parameter is unused) and casts the SPI and transform counts to `uint8`. -/
def encodeProposal (prop : SaProposal) (isLast : Bool) : List Nat :=
  let trs := (List.range prop.Transforms.length).zip prop.Transforms
  let body :=
    prop.Spi ++
    (trs.map (fun it => encodeTransform it.2 (it.1 == prop.Transforms.length - 1))).flatten
  let total := MIN_LEN_PROPOSAL + body.length
  [if isLast then 0 else 2, 0] ++ natB16 total ++
  [prop.Number % 256, prop.ProtocolId % 256, prop.Spi.length % 256,
   prop.Transforms.length % 256] ++ body

/-- `SaPayload.Encode`. -/
def SaPayload.EncodeBody (props : List SaProposal) : List Nat :=
  ((List.range props.length).zip props).map
    (fun ip => encodeProposal ip.2 (ip.1 == props.length - 1)) |>.flatten

/-- `KePayload.Encode`: 4-byte prefix (group, 2 reserved zero bytes), then
the big-integer key data without leading zeros. -/
def KePayload.EncodeBody (dhTransformId keyData : Nat) : List Nat :=
  natB16 dhTransformId ++ [0, 0] ++ natBytes keyData

/-- `IdPayload.Encode`. -/
def IdPayload.EncodeBody (idType : Nat) (data : List Nat) : List Nat :=
  [idType % 256, 0, 0, 0] ++ data

/-- `AuthPayload.Encode`. -/
def AuthPayload.EncodeBody (method : Nat) (data : List Nat) : List Nat :=
  [method % 256, 0, 0, 0] ++ data

/-- `NoncePayload.Encode`: the big-integer bytes, dropping leading zeros. -/
def NoncePayload.EncodeBody (nonce : Nat) : List Nat := natBytes nonce

/-- `NotifyPayload.Encode`. -/
def NotifyPayload.EncodeBody (pid nt : Nat) (spi data : List Nat) : List Nat :=
  [pid % 256, spi.length % 256] ++ natB16 nt ++ spi ++ data

/-- `encodeSelector`: ports written at offsets 4 and 6 (where the decoder
does not read them), addresses from offset 8, length at offset 2. -/
def encodeSelector (sel : Selector) : List Nat :=
  let total := MIN_LEN_SELECTOR + sel.StartAddress.length + sel.EndAddress.length
  [sel.SelType % 256, sel.IpProtocolId % 256] ++ natB16 total ++
  natB16 sel.StartPort ++ natB16 sel.Endport ++ sel.StartAddress ++ sel.EndAddress

/-- `TrafficSelectorPayload.Encode`. -/
def TrafficSelectorPayload.EncodeBody (sels : List Selector) : List Nat :=
  [sels.length % 256, 0, 0, 0] ++ (sels.map encodeSelector).flatten

/-- `payload.Encode()` dispatch; the CERT/CERTREQ/Delete/VendorId/CP/EAP
encoders return nil in the source. -/
def Payload.encodeBody : Payload → List Nat
  | .sa _ props => SaPayload.EncodeBody props
  | .ke _ dh kd => KePayload.EncodeBody dh kd
  | .id _ _ idt data => IdPayload.EncodeBody idt data
  | .cert _ => []
  | .certreq _ => []
  | .auth _ m data => AuthPayload.EncodeBody m data
  | .nonce _ n => NoncePayload.EncodeBody n
  | .notify _ pid nt spi data => NotifyPayload.EncodeBody pid nt spi data
  | .delete _ => []
  | .vendor _ => []
  | .ts _ _ sels => TrafficSelectorPayload.EncodeBody sels
  | .cp _ => []
  | .eap _ => []

/-- `encodePayloads` over an explicit payload list: for each payload, a
generic header carrying its stored NextPayload byte and recomputed length,
then its body. -/
def encodeChainList (l : List Payload) : List Nat :=
  (l.map fun pl =>
    encodePayloadHeader pl.NextPayloadType pl.encodeBody.length ++ pl.encodeBody).flatten

/-- `encodePayloads`: iterate the collection's array. -/
def encodePayloads (payloads : Payloads) : List Nat := encodeChainList payloads.Array

/-! ## TKM (tkm.go, cipher suites from crypto.go) -/

/-- `cipherSuite`: algorithm record.  The concrete algorithms (HMAC-SHA1/
SHA2-256 prf and mac, AES/Camellia CBC) are abstracted as functions; the
`mac` function already truncates to `macLen` (as `hashMac` does in the
source).  `isNull` marks `ENCR_NULL`, whose `cipherFunc` returns nil;
`blockSize` is the block size reported by the CBC mode; `decrypter`/
`encrypter` are the CBC `CryptBlocks` passes (key, iv, data). -/
structure cipherSuite where
  prfLen : Nat
  prf : List Nat → List Nat → List Nat
  keyLen : Nat
  macLen : Nat
  macKeyLen : Nat
  ivLen : Nat
  blockSize : Nat
  isNull : Bool
  mac : List Nat → List Nat → List Nat
  decrypter : List Nat → List Nat → List Nat → List Nat
  encrypter : List Nat → List Nat → List Nat → List Nat

/-- `Tkm` state: nonces and DH values are carried as their `big.Int.Bytes()`
byte strings (`Ni.Bytes()` etc. is how the source consumes them). -/
structure Tkm where
  suite : cipherSuite
  isInitiator : Bool
  Ni : List Nat
  Nr : List Nat
  DhShared : List Nat
  SKEYSEED : List Nat
  KEYMAT : List Nat
  skD : List Nat
  skPi : List Nat
  skPr : List Nat
  skAi : List Nat
  skAr : List Nat
  skEi : List Nat
  skEr : List Nat

/-- The rounds of `Tkm.prfplus`: after `n` rounds, `(ret, prev)` where round
`r` (1-based) computes `prev := prf(key, prev | data | byte(r))` and appends
it to `ret`; `byte(r)` is the Go `byte(round)` cast, i.e. `r % 256`. -/
def prfRounds (prf : List Nat → List Nat → List Nat) (key data : List Nat) :
    Nat → List Nat × List Nat
  | 0 => ([], [])
  | n+1 =>
    let rp := prfRounds prf key data n
    let t := prf key (rp.2 ++ data ++ [(n+1) % 256])
    (rp.1 ++ t, t)

/-- `Tkm.prfplus`: the Go loop runs rounds `while len(ret) < bits` and
returns `ret[:bits]`.  Rounds only append, so whenever every prf output is
nonempty (as for the HMAC prfs of the source) running exactly `bits` rounds
produces at least `bits` bytes and the `bits`-byte prefix below coincides
with the loop's result.  (With an empty prf output the Go loop would not
terminate; this model then returns the bytes produced so far.) -/
def Tkm.prfplus (t : Tkm) (key data : List Nat) (bits : Nat) : List Nat :=
  ((prfRounds t.suite.prf key data bits).1).take bits

/-- `Tkm.IsaCreate`: SKEYSEED and the KEYMAT split.  The Go slice
expressions `KEYMAT[offset:offset+n]` become take-after-drop at the same
offsets. -/
def Tkm.IsaCreate (t : Tkm) (spiI spiR : List Nat) : Tkm :=
  let SKEYSEED := t.suite.prf (t.Ni ++ t.Nr) t.DhShared
  let kmLen := 3 * t.suite.prfLen + 2 * t.suite.keyLen + 2 * t.suite.macKeyLen
  let KEYMAT := t.prfplus SKEYSEED ((t.Ni ++ t.Nr) ++ (spiI ++ spiR)) kmLen
  { t with
    SKEYSEED := SKEYSEED
    KEYMAT := KEYMAT
    skD := KEYMAT.take t.suite.prfLen
    skAi := (KEYMAT.drop t.suite.prfLen).take t.suite.macKeyLen
    skAr := (KEYMAT.drop (t.suite.prfLen + t.suite.macKeyLen)).take t.suite.macKeyLen
    skEi := (KEYMAT.drop (t.suite.prfLen + 2 * t.suite.macKeyLen)).take t.suite.keyLen
    skEr := (KEYMAT.drop (t.suite.prfLen + 2 * t.suite.macKeyLen + t.suite.keyLen)).take
      t.suite.keyLen
    skPi := (KEYMAT.drop
      (t.suite.prfLen + 2 * t.suite.macKeyLen + 2 * t.suite.keyLen)).take t.suite.prfLen
    skPr := (KEYMAT.drop
      (2 * t.suite.prfLen + 2 * t.suite.macKeyLen + 2 * t.suite.keyLen)).take
      t.suite.prfLen }

/-- `Tkm.VerifyMac`: split the trailing `macLen` bytes off and compare them
with the truncated mac of the rest under the peer-direction key.  `hmac.Equal`
is a constant-time byte-equality; timing is outside this model, the value
compared is plain equality.  Go panics modelled: `b[:l-macLen]` with
`l < macLen`, and the truncation `[:macLen]` of a shorter mac output. -/
def Tkm.VerifyMac (t : Tkm) (b : List Nat) : Except CodecErr Unit :=
  let key := if t.isInitiator then t.skAr else t.skAi
  if b.length < t.suite.macLen then .error .goPanic
  else
    let msg := b.take (b.length - t.suite.macLen)
    let msgMAC := b.drop (b.length - t.suite.macLen)
    if (t.suite.mac key msg).length < t.suite.macLen then .error .goPanic
    else
      let expectedMAC := (t.suite.mac key msg).take t.suite.macLen
      if msgMAC = expectedMAC then .ok () else .error .hmacVerifyFailed

/-- `Tkm.Decrypt`: split off the IV, CBC-decrypt whole blocks, and strip
`padlen = last byte + 1` trailing bytes (`byte` arithmetic: `% 256`).
Go panics modelled: `b[0:ivLen]` on a short buffer, indexing the last byte
of an empty ciphertext, and a strip count exceeding the length.  For
`ENCR_NULL` the nil cipher branch returns the input whole. -/
def Tkm.Decrypt (t : Tkm) (b : List Nat) : Except CodecErr (List Nat) :=
  let key := if t.isInitiator then t.skEr else t.skEi
  if b.length < t.suite.ivLen then .error .goPanic
  else
    let iv := b.take t.suite.ivLen
    let ciphertext := b.drop t.suite.ivLen
    if t.suite.isNull then .ok b
    else if ciphertext.length % t.suite.blockSize ≠ 0 then .error .notBlockMultiple
    else
      let pt := t.suite.decrypter key iv ciphertext
      if pt.length = 0 then .error .goPanic
      else
        let padlen := (pt.getLastD 0 + 1) % 256
        if pt.length < padlen then .error .goPanic
        else .ok (pt.take (pt.length - padlen))

/-- `Tkm.VerifyDecrypt`: verify the mac over the whole datagram first, then
decrypt `b[4 : len(b)-macLen]` of the part after the IKE header. -/
def Tkm.VerifyDecrypt (t : Tkm) (ike : List Nat) : Except CodecErr (List Nat) :=
  if ike.length < IKE_HEADER_LEN then .error .goPanic
  else
    let b := ike.drop IKE_HEADER_LEN
    match t.VerifyMac ike with
    | .error e => .error e
    | .ok _ =>
      if b.length < t.suite.macLen + PAYLOAD_HEADER_LENGTH then .error .goPanic
      else t.Decrypt ((b.take (b.length - t.suite.macLen)).drop PAYLOAD_HEADER_LENGTH)

/-- `Tkm.Encrypt` with the randomly drawn IV passed in (`rand.Prime` of
`ivLen*8` bits always yields exactly `ivLen` bytes).  CBC padding: pad with
`blockSize - len % blockSize` bytes whose last byte is `padlen-1`. -/
def Tkm.Encrypt (t : Tkm) (iv clear : List Nat) : List Nat :=
  let key := if t.isInitiator then t.skEi else t.skEr
  if t.suite.isNull then clear
  else
    let padlen := t.suite.blockSize - clear.length % t.suite.blockSize
    let padded :=
      if padlen ≠ 0 then
        clear ++ List.replicate (padlen - 1) 0 ++ [padlen - 1]
      else clear
    iv ++ t.suite.encrypter key iv padded

/-- `Tkm.mac`: own-direction mac over outgoing bytes. -/
def Tkm.macOwn (t : Tkm) (b : List Nat) : List Nat :=
  let macKey := if t.isInitiator then t.skAi else t.skAr
  t.suite.mac macKey b

/-! ## Message-level decode and encode (protocol.go) -/

/-- `Message.DecodePayloads`, preceded by `DecodeIkeHeader` (together: the
accepting path of the claims' "valid wire buffer").  Returns the header,
the decoded payloads in wire order, and the unconsumed remainder of the
payload area.  The SK branch verifies and decrypts through the `Tkm` and
continues the chain from the SK payload header's NextPayload byte; its
wiring follows `Tkm.VerifyDecrypt` of tkm.go (the call in protocol.go
names a three-result variant of that method which is not part of the
sources; no claim depends on the SK branch). -/
def decodeMessageFull (w : List Nat) (tkm : Option Tkm) :
    Except CodecErr (IkeHeader × List Payload × List Nat) :=
  match DecodeIkeHeader w with
  | .error e => .error e
  | .ok hdr =>
    if w.length < hdr.MsgLength then .error .syntaxError
    else if hdr.MsgLength < IKE_HEADER_LEN then .error .goPanic
    else
      let b := (w.take hdr.MsgLength).drop IKE_HEADER_LEN
      if hdr.NextPayload = 46 then
        match tkm with
        | none => .error .noTkm
        | some t =>
          match t.VerifyDecrypt w with
          | .error e => .error e
          | .ok dec =>
            match decodeChain (dec.length + 1) (readB8 w IKE_HEADER_LEN) dec with
            | .error e => .error e
            | .ok (l, rest) => .ok (hdr, l, rest)
      else
        match decodeChain (b.length + 1) hdr.NextPayload b with
        | .error e => .error e
        | .ok (l, rest) => .ok (hdr, l, rest)

/-- The decoded `Message`: payloads collected through `Payloads.Add` in
wire order (the remainder is dropped by the source). -/
def decodeMessage (w : List Nat) (tkm : Option Tkm) :
    Except CodecErr (IkeHeader × Payloads) :=
  match decodeMessageFull w tkm with
  | .error e => .error e
  | .ok (hdr, l, _) => .ok (hdr, payloadsOfList l)

/-- `Message.Encode`.  Non-SK: encode the payload chain, patch the header's
MsgLength (`uint32` cast) and prepend the encoded header.  SK: per
`Tkm.EncryptMac` — encrypt the encoded payloads (IV passed in for the
source's `rand.Prime` draw), wrap them in an SK payload header typed by the
first payload, patch MsgLength to include the trailing mac, and append the
own-direction mac over header and ciphertext.  `Array[0]` of an empty
payload collection is a Go index panic. -/
def Message.Encode (hdr : IkeHeader) (payloads : Payloads) (tkm : Option Tkm)
    (iv : List Nat) : Except CodecErr (List Nat) :=
  if hdr.NextPayload = 46 then
    match tkm with
    | none => .error .noTkm
    | some t =>
      match payloads.Array.head? with
      | none => .error .goPanic
      | some first =>
        let encr := t.Encrypt iv (encodePayloads payloads)
        let b := encodePayloadHeader first.typeOf (encr.length + t.suite.macLen) ++ encr
        let hdr' := { hdr with
          MsgLength := (b.length + IKE_HEADER_LEN + t.suite.macLen) % 4294967296 }
        let b' := hdr'.Encode ++ b
        .ok (b' ++ t.macOwn b')
  else
    let b := encodePayloads payloads
    let hdr' := { hdr with MsgLength := (b.length + IKE_HEADER_LEN) % 4294967296 }
    .ok (hdr'.Encode ++ b)

/-! ## Session message validation (session.go) -/

/-- The FSM states referenced by `Session.isMessageValid`
(`state.STATE_IDLE`, `state.STATE_START`; the remaining states of the state
package are inhabitants of `other`). -/
inductive FsmState where
  | idle
  | start
  | other (n : Nat)
deriving DecidableEq, Repr

/-- `IkeFlags.IsResponse`: bit 5 (`RESPONSE = 1<<5`). -/
def IkeFlags.IsResponse (f : Nat) : Bool := f &&& 32 != 0

/-- Validation error of `Session.isMessageValid` (the source produces
formatted error strings; only their identity matters here). -/
inductive MsgValidErr where
  | differentInitiatorSpi
  | unexpectedUnencrypted
  | unexpectedResponseId
  | unexpectedRequestId
deriving DecidableEq, Repr

/-- The session fields read and written by `PostMessage`/`isMessageValid`.
`msgIdReq`/`msgIdResp` are `uint32` counters. -/
structure SessionSt where
  IkeSpiI : List Nat
  fsmState : FsmState
  msgIdReq : Nat
  msgIdResp : Nat
  contextErr : Bool
deriving DecidableEq, Repr

/-- The message header fields read by `isMessageValid`. -/
structure MsgIn where
  SpiI : List Nat
  NextPayload : Nat
  Flags : Nat
  MsgId : Nat
deriving DecidableEq, Repr

/-- `Session.isMessageValid`: initiator-SPI check; unencrypted (non-SK)
messages only in Idle/Start; a response's MessageID must equal `msgIdReq`
(then `msgIdReq++`, wrapping as `uint32`); a request's MessageID must equal
`msgIdResp` (incremented later by the response sender).  Returns the
updated session on success. -/
def SessionSt.isMessageValid (o : SessionSt) (m : MsgIn) :
    Except MsgValidErr SessionSt :=
  if m.SpiI ≠ o.IkeSpiI then .error .differentInitiatorSpi
  else if m.NextPayload ≠ 46 ∧ o.fsmState ≠ .idle ∧ o.fsmState ≠ .start then
    .error .unexpectedUnencrypted
  else if IkeFlags.IsResponse m.Flags then
    if m.MsgId ≠ o.msgIdReq then .error .unexpectedResponseId
    else .ok { o with msgIdReq := (o.msgIdReq + 1) % 4294967296 }
  else
    if m.MsgId ≠ o.msgIdResp then .error .unexpectedRequestId
    else .ok o

/-- `Session.PostMessage`: drop (and only log) on validation failure or on a
cancelled context, else queue the message on `incoming`.  The returned pair
is the session state afterwards and the queued message (`none` = dropped,
no reply is ever produced here). -/
def SessionSt.PostMessage (o : SessionSt) (m : MsgIn) : SessionSt × Option MsgIn :=
  match o.isMessageValid m with
  | .error _ => (o, none)
  | .ok o' => if o'.contextErr then (o', none) else (o', some m)

/-! ## Small byte-level lemmas -/

theorem getD_lt_256 (w : List Nat) (hb : ∀ x ∈ w, x < 256) (i : Nat) :
    w.getD i 0 < 256 := by
  by_cases hi : i < w.length
  · rw [List.getD_eq_getElem w 0 hi]
    exact hb _ (List.getElem_mem hi)
  · rw [List.getD_eq_default _ _ (by omega)]; omega

theorem take4_eq (b : List Nat) (h : 4 ≤ b.length) :
    b.take 4 = [b.getD 0 0, b.getD 1 0, b.getD 2 0, b.getD 3 0] := by
  match b, h with
  | x0 :: x1 :: x2 :: x3 :: t, _ => rfl

theorem getD_take (b : List Nat) (n i : Nat) (h : i < n) :
    (b.take n).getD i 0 = b.getD i 0 := by
  simp only [List.getD_eq_getElem?_getD, List.getElem?_take]
  simp [h]

theorem getD_drop (b : List Nat) (n i : Nat) :
    (b.drop n).getD i 0 = b.getD (n + i) 0 := by
  simp only [List.getD_eq_getElem?_getD, List.getElem?_drop]

/-! ## C8 -/

/-- C8: decoding fails with InvalidSyntax when the buffer is shorter than
the 28-byte header, or the header's Length field is below 28, or the buffer
is shorter than Length; otherwise `DecodeIkeHeader` succeeds and returns
the parsed 28-octet header fields. -/
theorem C8_header_length_checks (b : List Nat) :
    (b.length < 28 → DecodeIkeHeader b = .error .syntaxError)
    ∧ (28 ≤ b.length → readB32 b 24 < 28 → DecodeIkeHeader b = .error .syntaxError)
    ∧ (28 ≤ b.length → 28 ≤ readB32 b 24 →
        DecodeIkeHeader b = .ok
          { SpiI := b.take 8, SpiR := (b.drop 8).take 8,
            NextPayload := readB8 b 16,
            MajorVersion := readB8 b 17 / 16, MinorVersion := readB8 b 17 % 16,
            ExchangeType := readB8 b 18, Flags := readB8 b 19,
            MsgId := readB32 b 20, MsgLength := readB32 b 24 })
    ∧ (∀ tkm, 28 ≤ b.length → 28 ≤ readB32 b 24 → b.length < readB32 b 24 →
        decodeMessageFull b tkm = .error .syntaxError) := by
  refine ⟨fun h => ?_, fun h1 h2 => ?_, fun h1 h2 => ?_, fun tkm h1 h2 h3 => ?_⟩
  · simp only [DecodeIkeHeader]
    rw [if_pos h]
  · simp only [DecodeIkeHeader]
    rw [if_neg (Nat.not_lt.mpr h1), if_pos h2]
  · simp only [DecodeIkeHeader]
    rw [if_neg (Nat.not_lt.mpr h1), if_neg (Nat.not_lt.mpr h2)]
  · have hh : DecodeIkeHeader b = .ok
        { SpiI := b.take 8, SpiR := (b.drop 8).take 8,
          NextPayload := readB8 b 16,
          MajorVersion := readB8 b 17 / 16, MinorVersion := readB8 b 17 % 16,
          ExchangeType := readB8 b 18, Flags := readB8 b 19,
          MsgId := readB32 b 20, MsgLength := readB32 b 24 } := by
      simp only [DecodeIkeHeader]
      rw [if_neg (Nat.not_lt.mpr h1), if_neg (Nat.not_lt.mpr h2)]
    simp only [decodeMessageFull, hh]
    rw [if_pos h3]

/-- C8 witness: at a concrete 30-byte buffer whose Length field reads 40,
decoding the message fails with InvalidSyntax. -/
theorem C8_witness :
    decodeMessageFull
      [1,2,3,4,5,6,7,8, 0,0,0,0,0,0,0,0, 33, 32, 34, 8, 0,0,0,0, 0,0,0,40, 0,0]
      none = .error .syntaxError :=
  (C8_header_length_checks _).2.2.2 none (by decide) (by decide) (by decide)

/-! ## C7 / C9: concrete buffers exercising the decoder -/

/-- A wire message whose single payload has an unknown type (49) and the
critical bit (0x80) set in its generic header. -/
def wCriticalUnknown : List Nat :=
  [1,1,1,1,1,1,1,1, 0,0,0,0,0,0,0,0, 49, 32, 34, 8, 0,0,0,0, 0,0,0,36] ++
  [0, 128, 0, 8, 9, 9, 9, 9]

/-- A wire message naming payload type 50, which has no arm in the decode
switch (the `payload` interface variable stays nil). -/
def wUnknownType : List Nat :=
  [1,1,1,1,1,1,1,1, 0,0,0,0,0,0,0,0, 50, 32, 34, 8, 0,0,0,0, 0,0,0,36] ++
  [0, 0, 0, 8, 9, 9, 9, 9]

/-- A wire message whose Notify payload header carries PayloadLength 3
(smaller than the 4-byte generic header). -/
def wShortPayloadLength : List Nat :=
  [1,1,1,1,1,1,1,1, 0,0,0,0,0,0,0,0, 41, 32, 34, 8, 0,0,0,0, 0,0,0,36] ++
  [0, 0, 0, 3, 9, 9, 9, 9]

/-- A wire message whose Notify payload header carries PayloadLength 200
(larger than the remaining buffer). -/
def wLongPayloadLength : List Nat :=
  [1,1,1,1,1,1,1,1, 0,0,0,0,0,0,0,0, 41, 32, 34, 8, 0,0,0,0, 0,0,0,36] ++
  [0, 0, 0, 200, 9, 9, 9, 9]

/-- C7: the decoder never detects the critical flag — `PayloadHeader.Decode`
tests `c&0x80 == 1`, which is false even for a header byte 0x80, so
`IsCritical` is false; and a message with an unknown critical payload is
not answered with an UNSUPPORTED_CRITICAL_PAYLOAD notify: decoding it hits
the nil-interface `payload.Decode` call, a runtime panic (the notification
constant is defined but never produced anywhere in the source). -/
theorem C7_critical_flag_never_detected :
    PayloadHeader.Decode [0, 128, 0, 8] =
      .ok { NextPayload := 0, IsCritical := false, PayloadLength := 8 }
    ∧ decodeMessageFull wCriticalUnknown none = .error .goPanic :=
  ⟨rfl, rfl⟩

/-- C9: `Message.DecodePayloads` is not total — on a buffer whose decoded
header is accepted, a payload type outside the handled set, a PayloadLength
below 4, and a PayloadLength beyond the remaining buffer each end in a Go
runtime panic (nil-interface call resp. slice out of range), not in an
error value. -/
theorem C9_decodePayloads_panics :
    decodeMessageFull wUnknownType none = .error .goPanic
    ∧ decodeMessageFull wShortPayloadLength none = .error .goPanic
    ∧ decodeMessageFull wLongPayloadLength none = .error .goPanic :=
  ⟨rfl, rfl, rfl⟩

deriving instance DecidableEq for Except

/-! ## C4 / C5: the prf+ key-expansion -/

/-- Modelled from the spec: `T1 = prf(K, S | 0x01)`,
`Ti = prf(K, T_{i-1} | S | byte(i))` with a 1-based u8 round counter. -/
def specTi (prf : List Nat → List Nat → List Nat) (key data : List Nat) : Nat → List Nat
  | 0 => []
  | 1 => prf key (data ++ [1])
  | n+2 => prf key (specTi prf key data (n+1) ++ data ++ [(n+2) % 256])

/-- Modelled from the spec: the concatenation `T1 | T2 | … | Tn`. -/
def specTconcat (prf : List Nat → List Nat → List Nat) (key data : List Nat)
    (n : Nat) : List Nat :=
  ((List.range n).map (fun i => specTi prf key data (i+1))).flatten

theorem prfRounds_eq_spec (prf : List Nat → List Nat → List Nat)
    (key data : List Nat) : ∀ n,
    (prfRounds prf key data n).1 = specTconcat prf key data n
    ∧ (prfRounds prf key data n).2 = specTi prf key data n := by
  intro n
  induction n with
  | zero => exact ⟨rfl, rfl⟩
  | succ n ih =>
    have hsnd : prf key ((prfRounds prf key data n).2 ++ data ++ [(n+1) % 256]) =
        specTi prf key data (n+1) := by
      rw [ih.2]
      match n with
      | 0 => simp [specTi]
      | m+1 => rfl
    refine ⟨?_, by simpa [prfRounds] using hsnd⟩
    show (prfRounds prf key data n).1 ++ _ = _
    rw [ih.1, hsnd, specTconcat, specTconcat, List.range_succ]
    simp

/-- Length of the generated stream when every prf output has length `L`. -/
theorem prfRounds_length (prf : List Nat → List Nat → List Nat) (key data : List Nat)
    (L : Nat) (hL : ∀ k d, (prf k d).length = L) : ∀ n,
    ((prfRounds prf key data n).1).length = n * L := by
  intro n
  induction n with
  | zero => simp [prfRounds]
  | succ n ih =>
    show ((prfRounds prf key data n).1 ++ _).length = _
    rw [List.length_append, ih, hL]
    ring

/-- The demonstration suite for C4: a prf with a one-byte output
(`prf_out = 1`). -/
def oneByteSuite : cipherSuite :=
  { prfLen := 1, prf := fun _ _ => [0], keyLen := 0, macLen := 0, macKeyLen := 0,
    ivLen := 0, blockSize := 1, isNull := false,
    mac := fun _ _ => [], decrypter := fun _ _ c => c, encrypter := fun _ _ c => c }

/-- A TKM over `oneByteSuite` (remaining fields empty). -/
def oneByteTkm : Tkm :=
  { suite := oneByteSuite, isInitiator := true, Ni := [], Nr := [], DhShared := [],
    SKEYSEED := [], KEYMAT := [], skD := [], skPi := [], skPr := [], skAi := [],
    skAr := [], skEi := [], skEr := [] }

set_option maxRecDepth 4000 in
/-- C4: `prfplus` produces exactly the spec's `T1 | T2 | …` truncated to the
requested length — but it has no failure path at all: at `n_bytes = 256`
with a one-byte prf output (`n_bytes > 255·prf_out`) it happily returns 256
bytes with the u8 round counter wrapping (`byte(256) = 0`), where the claim
requires the computation to fail. -/
theorem C4_prfplus_construction_and_no_failure :
    (∀ (t : Tkm) (key data : List Nat) (bits : Nat),
      t.prfplus key data bits = (specTconcat t.suite.prf key data bits).take bits)
    ∧ (oneByteTkm.prfplus [] [] 256).length = 256 := by
  constructor
  · intro t key data bits
    rw [Tkm.prfplus, (prfRounds_eq_spec t.suite.prf key data bits).1]
  · decide

/-- The generated stream is monotone in the number of rounds. -/
theorem prfRounds_prefix (prf : List Nat → List Nat → List Nat) (key data : List Nat)
    {n m : Nat} (h : n ≤ m) :
    (prfRounds prf key data n).1 <+: (prfRounds prf key data m).1 := by
  induction m with
  | zero => cases Nat.le_zero.mp h; exact List.prefix_rfl
  | succ m ih =>
    rcases Nat.lt_or_ge n (m+1) with hlt | hge
    · refine (ih (by omega)).trans ?_
      show _ <+: (prfRounds prf key data m).1 ++ _
      exact List.prefix_append _ _
    · have : n = m + 1 := by omega
      subst this; exact List.prefix_rfl

/-- C5: prefix stability of the key expansion — `prf+(K,S,n)` is the
`n`-byte prefix of `prf+(K,S,m)` for `m ≥ n`. -/
theorem C5_prfplus_prefix_stable (t : Tkm) (key data : List Nat) (n m : Nat)
    (hnm : n ≤ m) :
    t.prfplus key data n <+: t.prfplus key data m := by
  obtain ⟨rest, hrest⟩ := prfRounds_prefix t.suite.prf key data hnm
  rw [Tkm.prfplus, Tkm.prfplus, ← hrest, List.take_append_eq_append_take]
  have h1 : (prfRounds t.suite.prf key data n).1.take n =
      ((prfRounds t.suite.prf key data n).1.take m).take n := by
    rw [List.take_take, Nat.min_eq_left hnm]
  rw [h1]
  exact (List.take_prefix _ _).trans (List.prefix_append _ _)

/-- C5 witness: concrete prefix instance (`n = 2`, `m = 5`). -/
theorem C5_witness : oneByteTkm.prfplus [3] [7] 2 <+: oneByteTkm.prfplus [3] [7] 5 :=
  C5_prfplus_prefix_stable oneByteTkm [3] [7] 2 5 (by decide)

/-! ## C3: the IKE SA key split -/

theorem take_add_drop (l : List Nat) (a b : Nat) :
    (l.drop a).take b ++ l.drop (a + b) = l.drop a := by
  have h := List.take_append_drop b (l.drop a)
  rwa [List.drop_drop] at h

/-- Recomposition of the seven contiguous key slices of a buffer of length
`3p + 2m + 2k` (offsets exactly as in `Tkm.IsaCreate`). -/
theorem keymat_split (K : List Nat) (p m k : Nat) (hK : K.length = 3*p + 2*m + 2*k) :
    K = K.take p ++ (K.drop p).take m ++ (K.drop (p + m)).take m ++
        (K.drop (p + 2*m)).take k ++ (K.drop (p + 2*m + k)).take k ++
        (K.drop (p + 2*m + 2*k)).take p ++ (K.drop (2*p + 2*m + 2*k)).take p := by
  have hlast : (K.drop (2*p + 2*m + 2*k)).take p = K.drop (2*p + 2*m + 2*k) := by
    apply List.take_of_length_le
    rw [List.length_drop, hK]; omega
  rw [hlast]
  have e0 := List.take_append_drop p K
  have e1 := take_add_drop K p m
  have e2 := take_add_drop K (p + m) m
  have e3 := take_add_drop K (p + 2*m) k
  have e4 := take_add_drop K (p + 2*m + k) k
  have e5 := take_add_drop K (p + 2*m + 2*k) p
  calc K = K.take p ++ K.drop p := e0.symm
    _ = K.take p ++ ((K.drop p).take m ++ K.drop (p + m)) := by rw [e1]
    _ = K.take p ++ ((K.drop p).take m ++ ((K.drop (p + m)).take m ++ K.drop (p + m + m))) := by
          rw [e2]
    _ = K.take p ++ ((K.drop p).take m ++ ((K.drop (p + m)).take m ++
          ((K.drop (p + 2*m)).take k ++ K.drop (p + 2*m + k)))) := by
          rw [show p + m + m = p + 2*m by ring, e3]
    _ = K.take p ++ ((K.drop p).take m ++ ((K.drop (p + m)).take m ++
          ((K.drop (p + 2*m)).take k ++ ((K.drop (p + 2*m + k)).take k ++
            K.drop (p + 2*m + k + k))))) := by rw [e4]
    _ = K.take p ++ ((K.drop p).take m ++ ((K.drop (p + m)).take m ++
          ((K.drop (p + 2*m)).take k ++ ((K.drop (p + 2*m + k)).take k ++
            ((K.drop (p + 2*m + 2*k)).take p ++ K.drop (p + 2*m + 2*k + p)))))) := by
          rw [show p + 2*m + k + k = p + 2*m + 2*k by ring, e5]
    _ = _ := by
          rw [show p + 2*m + 2*k + p = 2*p + 2*m + 2*k by ring]
          simp [List.append_assoc]

/-- Length of the expansion when every prf output has length `prfLen > 0`. -/
theorem prfplus_length (t : Tkm) (key data : List Nat) (bits : Nat)
    (hL : ∀ k d, (t.suite.prf k d).length = t.suite.prfLen)
    (hpos : 0 < t.suite.prfLen) :
    (t.prfplus key data bits).length = bits := by
  rw [Tkm.prfplus, List.length_take,
    prfRounds_length t.suite.prf key data t.suite.prfLen hL bits]
  have : bits ≤ bits * t.suite.prfLen := Nat.le_mul_of_pos_right bits hpos
  omega

/-- C3: on a completed IKE_SA_INIT state, `IsaCreate` computes
`SKEYSEED = prf(Ni | Nr, g^ir)` (this TKM variant never holds an old SK_d),
expands `KEYMAT = prf+(SKEYSEED, Ni | Nr | SPIi | SPIr)` to
`3·prf_len + 2·key_len + 2·mac_key_len` bytes, and splits it contiguously in
the order SK_d, SK_ai, SK_ar, SK_ei, SK_er, SK_pi, SK_pr with the stated
slice lengths. -/
theorem C3_isaCreate (t : Tkm) (spiI spiR : List Nat)
    (hL : ∀ k d, (t.suite.prf k d).length = t.suite.prfLen)
    (hpos : 0 < t.suite.prfLen) :
    (t.IsaCreate spiI spiR).SKEYSEED = t.suite.prf (t.Ni ++ t.Nr) t.DhShared
    ∧ (t.IsaCreate spiI spiR).KEYMAT =
        t.prfplus (t.suite.prf (t.Ni ++ t.Nr) t.DhShared)
          ((t.Ni ++ t.Nr) ++ (spiI ++ spiR))
          (3 * t.suite.prfLen + 2 * t.suite.keyLen + 2 * t.suite.macKeyLen)
    ∧ (t.IsaCreate spiI spiR).KEYMAT.length =
        3 * t.suite.prfLen + 2 * t.suite.keyLen + 2 * t.suite.macKeyLen
    ∧ (t.IsaCreate spiI spiR).KEYMAT =
        (t.IsaCreate spiI spiR).skD ++ (t.IsaCreate spiI spiR).skAi ++
        (t.IsaCreate spiI spiR).skAr ++ (t.IsaCreate spiI spiR).skEi ++
        (t.IsaCreate spiI spiR).skEr ++ (t.IsaCreate spiI spiR).skPi ++
        (t.IsaCreate spiI spiR).skPr
    ∧ (t.IsaCreate spiI spiR).skD.length = t.suite.prfLen
    ∧ (t.IsaCreate spiI spiR).skAi.length = t.suite.macKeyLen
    ∧ (t.IsaCreate spiI spiR).skAr.length = t.suite.macKeyLen
    ∧ (t.IsaCreate spiI spiR).skEi.length = t.suite.keyLen
    ∧ (t.IsaCreate spiI spiR).skEr.length = t.suite.keyLen
    ∧ (t.IsaCreate spiI spiR).skPi.length = t.suite.prfLen
    ∧ (t.IsaCreate spiI spiR).skPr.length = t.suite.prfLen := by
  have hkm : (t.IsaCreate spiI spiR).KEYMAT.length =
      3 * t.suite.prfLen + 2 * t.suite.keyLen + 2 * t.suite.macKeyLen := by
    simp only [Tkm.IsaCreate]
    exact prfplus_length t _ _ _ hL hpos
  refine ⟨rfl, rfl, hkm, ?_, ?_, ?_, ?_, ?_, ?_, ?_, ?_⟩
  · have h := keymat_split (t.IsaCreate spiI spiR).KEYMAT
      t.suite.prfLen t.suite.macKeyLen t.suite.keyLen (by omega)
    calc (t.IsaCreate spiI spiR).KEYMAT = _ := h
      _ = _ := by simp only [Tkm.IsaCreate, List.append_assoc]
  all_goals
    simp only [Tkm.IsaCreate, List.length_take, List.length_drop]
    simp only [Tkm.IsaCreate] at hkm
    omega

/-- A small concrete suite for the C3 witness: 2-byte prf output, 1-byte
encryption and mac keys. -/
def splitSuite : cipherSuite :=
  { prfLen := 2, prf := fun k d => [k.length % 256, d.length % 256],
    keyLen := 1, macLen := 0, macKeyLen := 1, ivLen := 0, blockSize := 1,
    isNull := false, mac := fun _ _ => [], decrypter := fun _ _ c => c,
    encrypter := fun _ _ c => c }

def splitTkm : Tkm :=
  { suite := splitSuite, isInitiator := true, Ni := [5], Nr := [6],
    DhShared := [7], SKEYSEED := [], KEYMAT := [], skD := [], skPi := [],
    skPr := [], skAi := [], skAr := [], skEi := [], skEr := [] }

/-- C3 witness: the seven key slices recompose the concrete KEYMAT. -/
theorem C3_witness :
    (splitTkm.IsaCreate [8] [9]).KEYMAT =
      (splitTkm.IsaCreate [8] [9]).skD ++ (splitTkm.IsaCreate [8] [9]).skAi ++
      (splitTkm.IsaCreate [8] [9]).skAr ++ (splitTkm.IsaCreate [8] [9]).skEi ++
      (splitTkm.IsaCreate [8] [9]).skEr ++ (splitTkm.IsaCreate [8] [9]).skPi ++
      (splitTkm.IsaCreate [8] [9]).skPr :=
  (C3_isaCreate splitTkm [8] [9] (fun _ _ => rfl) (by decide)).2.2.2.1

/-! ## C2: MAC-then-decrypt of the SK payload -/

/-- C2: `VerifyDecrypt` splits off the trailing `macLen` bytes, compares
them (`hmac.Equal`, a constant-time comparison — timing is outside this
model, the compared value is plain byte equality) with the truncated mac
over all preceding bytes, and
(i) on any mismatch returns the fixed authentication-failure error — one
constant for every input, revealing nothing about the cause — and no
plaintext;
(ii) only on a match CBC-decrypts the middle portion (the bytes between the
SK generic header and the mac);
(iii) the decryption strips the IV and then `pad_len+1` trailing bytes,
`pad_len` being the trailing plaintext byte (the source computes
`pad_len+1` in `byte` arithmetic; the hypothesis `pad_len < 255` keeps the
claim's reading and the code's agreeing). -/
theorem C2_verifyDecrypt (t : Tkm) (ike : List Nat)
    (h28 : IKE_HEADER_LEN ≤ ike.length)
    (hmid : t.suite.macLen + PAYLOAD_HEADER_LENGTH ≤ ike.length - IKE_HEADER_LEN)
    (hout : t.suite.macLen ≤
      (t.suite.mac (if t.isInitiator then t.skAr else t.skAi)
        (ike.take (ike.length - t.suite.macLen))).length) :
    (ike.drop (ike.length - t.suite.macLen) ≠
        (t.suite.mac (if t.isInitiator then t.skAr else t.skAi)
          (ike.take (ike.length - t.suite.macLen))).take t.suite.macLen →
      t.VerifyDecrypt ike = .error .hmacVerifyFailed)
    ∧ (ike.drop (ike.length - t.suite.macLen) =
        (t.suite.mac (if t.isInitiator then t.skAr else t.skAi)
          (ike.take (ike.length - t.suite.macLen))).take t.suite.macLen →
      t.VerifyDecrypt ike =
        t.Decrypt (((ike.drop IKE_HEADER_LEN).take
          (ike.length - IKE_HEADER_LEN - t.suite.macLen)).drop PAYLOAD_HEADER_LENGTH))
    ∧ (∀ mid pt,
      mid = ((ike.drop IKE_HEADER_LEN).take
          (ike.length - IKE_HEADER_LEN - t.suite.macLen)).drop PAYLOAD_HEADER_LENGTH →
      pt = t.suite.decrypter (if t.isInitiator then t.skEr else t.skEi)
        (mid.take t.suite.ivLen) (mid.drop t.suite.ivLen) →
      ike.drop (ike.length - t.suite.macLen) =
        (t.suite.mac (if t.isInitiator then t.skAr else t.skAi)
          (ike.take (ike.length - t.suite.macLen))).take t.suite.macLen →
      t.suite.isNull = false →
      t.suite.ivLen ≤ mid.length →
      (mid.drop t.suite.ivLen).length % t.suite.blockSize = 0 →
      pt ≠ [] →
      pt.getLastD 0 + 1 ≤ pt.length →
      pt.getLastD 0 < 255 →
      t.VerifyDecrypt ike = .ok (pt.take (pt.length - (pt.getLastD 0 + 1)))) := by
  have hblen : ¬ ike.length < t.suite.macLen := by omega
  have hvm : t.VerifyMac ike =
      if ike.drop (ike.length - t.suite.macLen) =
          (t.suite.mac (if t.isInitiator then t.skAr else t.skAi)
            (ike.take (ike.length - t.suite.macLen))).take t.suite.macLen
      then .ok () else .error .hmacVerifyFailed := by
    simp only [Tkm.VerifyMac]
    rw [if_neg hblen, if_neg (Nat.not_lt.mpr hout)]
  have hnot28 : ¬ ike.length < IKE_HEADER_LEN := by omega
  have hdlen : (ike.drop IKE_HEADER_LEN).length = ike.length - IKE_HEADER_LEN :=
    List.length_drop _ _
  have hnotshort : ¬ (ike.drop IKE_HEADER_LEN).length <
      t.suite.macLen + PAYLOAD_HEADER_LENGTH := by
    rw [hdlen]; omega
  have hmatch : ∀ (heq : ike.drop (ike.length - t.suite.macLen) =
      (t.suite.mac (if t.isInitiator then t.skAr else t.skAi)
        (ike.take (ike.length - t.suite.macLen))).take t.suite.macLen),
      t.VerifyDecrypt ike =
        t.Decrypt (((ike.drop IKE_HEADER_LEN).take
          (ike.length - IKE_HEADER_LEN - t.suite.macLen)).drop PAYLOAD_HEADER_LENGTH) := by
    intro heq
    simp only [Tkm.VerifyDecrypt]
    rw [if_neg hnot28, hvm, if_pos heq]
    simp only []
    rw [if_neg hnotshort, hdlen]
  refine ⟨fun hne => ?_, hmatch, fun mid pt hmidv hptv heq hnull hiv hblk hne hpl hlast => ?_⟩
  · simp only [Tkm.VerifyDecrypt]
    rw [if_neg hnot28, hvm, if_neg hne]
  · rw [hmatch heq, ← hmidv, Tkm.Decrypt]
    rw [if_neg (Nat.not_lt.mpr hiv)]
    simp only [hnull, if_neg Bool.false_ne_true, hblk]
    rw [if_neg (by simp), ← hptv]
    have hne0 : ¬ pt.length = 0 := by
      intro h0; exact hne (List.length_eq_zero.mp h0)
    rw [if_neg hne0]
    have hmod : (pt.getLastD 0 + 1) % 256 = pt.getLastD 0 + 1 :=
      Nat.mod_eq_of_lt (by omega)
    rw [hmod, if_neg (Nat.not_lt.mpr hpl)]

/-- Concrete suite for the C2 witness: 2-byte truncated mac (constant
output), 2-byte IV, 2-byte blocks, identity CBC pass. -/
def c2Suite : cipherSuite :=
  { prfLen := 1, prf := fun _ _ => [0], keyLen := 1, macLen := 2, macKeyLen := 1,
    ivLen := 2, blockSize := 2, isNull := false, mac := fun _ _ => [9, 9],
    decrypter := fun _ _ c => c, encrypter := fun _ _ c => c }

def c2Tkm : Tkm :=
  { suite := c2Suite, isInitiator := true, Ni := [], Nr := [], DhShared := [],
    SKEYSEED := [], KEYMAT := [], skD := [], skPi := [], skPr := [],
    skAi := [1], skAr := [2], skEi := [3], skEr := [4] }

/-- 38-byte SK-protected datagram: 28-byte header, 4-byte SK payload
header, 2-byte IV, 2-byte ciphertext `[5,0]` (pad byte 0), 2-byte mac. -/
def c2Ike : List Nat :=
  [0,0,0,0,0,0,0,0, 0,0,0,0,0,0,0,0, 46, 32, 35, 8, 0,0,0,1, 0,0,0,38] ++
  [33, 0, 0, 10] ++ [7, 7] ++ [5, 0] ++ [9, 9]

/-- C2 witness: the concrete datagram authenticates and decrypts to `[5]`
(one plaintext byte, one pad-length byte stripped). -/
theorem C2_witness : c2Tkm.VerifyDecrypt c2Ike = .ok [5] :=
  (C2_verifyDecrypt c2Tkm c2Ike (by decide) (by decide) (by decide)).2.2
    [7, 7, 5, 0] [5, 0] (by decide) (by decide) (by decide) rfl
    (by decide) (by decide) (by decide) (by decide) (by decide)

/-! ## C6: message-ID discipline on receive -/

/-- Closed form of `PostMessage`: each guard of `isMessageValid` in source
order, then the context check; every failure leaves the state unchanged and
queues nothing. -/
theorem postMessage_eq (o : SessionSt) (m : MsgIn) :
    o.PostMessage m =
      if m.SpiI ≠ o.IkeSpiI then (o, none)
      else if m.NextPayload ≠ 46 ∧ o.fsmState ≠ .idle ∧ o.fsmState ≠ .start then (o, none)
      else if IkeFlags.IsResponse m.Flags then
        if m.MsgId ≠ o.msgIdReq then (o, none)
        else if o.contextErr then
          ({ o with msgIdReq := (o.msgIdReq + 1) % 4294967296 }, none)
        else ({ o with msgIdReq := (o.msgIdReq + 1) % 4294967296 }, some m)
      else if m.MsgId ≠ o.msgIdResp then (o, none)
      else if o.contextErr then (o, none) else (o, some m) := by
  simp only [SessionSt.PostMessage, SessionSt.isMessageValid]
  by_cases h1 : m.SpiI ≠ o.IkeSpiI
  · rw [if_pos h1, if_pos h1]
  · rw [if_neg h1, if_neg h1]
    by_cases h2 : m.NextPayload ≠ 46 ∧ o.fsmState ≠ .idle ∧ o.fsmState ≠ .start
    · rw [if_pos h2, if_pos h2]
    · rw [if_neg h2, if_neg h2]
      by_cases h3 : IkeFlags.IsResponse m.Flags = true
      · rw [if_pos h3, if_pos h3]
        by_cases h4 : m.MsgId ≠ o.msgIdReq
        · rw [if_pos h4, if_pos h4]
        · rw [if_neg h4, if_neg h4]
      · rw [if_neg h3, if_neg h3]
        by_cases h4 : m.MsgId ≠ o.msgIdResp
        · rw [if_pos h4, if_pos h4]
        · rw [if_neg h4, if_neg h4]

/-- C6: a posted message is accepted (queued) only under the message-ID
discipline — a response only when its MessageID equals `msgIdReq`, which is
then incremented (`uint32` wrap), a request only when its MessageID equals
`msgIdResp` (left unchanged here; the sender of the response increments
it), and an unencrypted (non-SK) message only in the Idle or Start state;
any MessageID mismatch drops the message silently: nothing is queued, no
reply is produced, and the session state is unchanged. -/
theorem C6_message_id_discipline (o : SessionSt) (m : MsgIn) :
    (∀ o', o.PostMessage m = (o', some m) →
      (IkeFlags.IsResponse m.Flags = true →
        m.MsgId = o.msgIdReq ∧ o'.msgIdReq = (o.msgIdReq + 1) % 4294967296)
      ∧ (IkeFlags.IsResponse m.Flags = false →
        m.MsgId = o.msgIdResp ∧ o' = o)
      ∧ (m.NextPayload ≠ 46 → o.fsmState = .idle ∨ o.fsmState = .start))
    ∧ ((IkeFlags.IsResponse m.Flags = true ∧ m.MsgId ≠ o.msgIdReq) ∨
        (IkeFlags.IsResponse m.Flags = false ∧ m.MsgId ≠ o.msgIdResp) →
      o.PostMessage m = (o, none)) := by
  constructor
  · intro o' hpost
    rw [postMessage_eq] at hpost
    split_ifs at hpost with h1 h2 h3 h4 h5 h6 h7
    all_goals try (exfalso; exact Option.noConfusion (Prod.ext_iff.mp hpost).2)
    · -- response accepted
      have hstates : m.NextPayload ≠ 46 → o.fsmState = .idle ∨ o.fsmState = .start := by
        intro hnp
        rcases not_and_or.mp h2 with h | h
        · exact absurd hnp h
        · rcases not_and_or.mp h with h' | h'
          · exact Or.inl (not_not.mp h')
          · exact Or.inr (not_not.mp h')
      have ho' : o' = { o with msgIdReq := (o.msgIdReq + 1) % 4294967296 } :=
        ((Prod.ext_iff.mp hpost).1).symm
      refine ⟨fun _ => ⟨not_not.mp h4, by rw [ho']⟩, fun hf => absurd h3 (by simp [hf]), hstates⟩
    · -- request accepted
      have hstates : m.NextPayload ≠ 46 → o.fsmState = .idle ∨ o.fsmState = .start := by
        intro hnp
        rcases not_and_or.mp h2 with h | h
        · exact absurd hnp h
        · rcases not_and_or.mp h with h' | h'
          · exact Or.inl (not_not.mp h')
          · exact Or.inr (not_not.mp h')
      have ho' : o' = o := ((Prod.ext_iff.mp hpost).1).symm
      exact ⟨fun ht => absurd ht h3, fun _ => ⟨not_not.mp h6, ho'⟩, hstates⟩
  · intro hmm
    rw [postMessage_eq]
    by_cases h1 : m.SpiI ≠ o.IkeSpiI
    · rw [if_pos h1]
    · rw [if_neg h1]
      by_cases h2 : m.NextPayload ≠ 46 ∧ o.fsmState ≠ .idle ∧ o.fsmState ≠ .start
      · rw [if_pos h2]
      · rw [if_neg h2]
        rcases hmm with ⟨hresp, hid⟩ | ⟨hresp, hid⟩
        · rw [if_pos hresp, if_pos hid]
        · rw [if_neg (by simp [hresp]), if_pos hid]

/-- C6 witness: an out-of-order response (MessageID 6 against `msgIdReq = 5`)
is dropped silently with no state change. -/
theorem C6_witness :
    ({ IkeSpiI := [1], fsmState := .idle, msgIdReq := 5, msgIdResp := 3,
       contextErr := false } : SessionSt).PostMessage
      { SpiI := [1], NextPayload := 33, Flags := 32, MsgId := 6 } =
      ({ IkeSpiI := [1], fsmState := .idle, msgIdReq := 5, msgIdResp := 3,
         contextErr := false }, none) :=
  (C6_message_id_discipline _ _).2 (Or.inl ⟨by decide, by decide⟩)

/-! ## C10: uniqueness of payloads per type -/

/-- Well-formedness of a `Payloads` collection: the map sends a type to an
in-range index whose array entry has that type, and every array entry is
indexed by the map at its own type. -/
def PayloadsWF (p : Payloads) : Prop :=
  (∀ t i, p.Map t = some i → ∃ h : i < p.Array.length, (p.Array.get ⟨i, h⟩).typeOf = t)
  ∧ ∀ i (h : i < p.Array.length), p.Map ((p.Array.get ⟨i, h⟩).typeOf) = some i

theorem payloadsWF_empty : PayloadsWF makePayloads :=
  ⟨fun _ i h => by simp [makePayloads] at h, fun i h => by simp [makePayloads] at h⟩

theorem PayloadsWF.distinct {p : Payloads} (hwf : PayloadsWF p)
    (i j : Nat) (hi : i < p.Array.length) (hj : j < p.Array.length)
    (heq : (p.Array.get ⟨i, hi⟩).typeOf = (p.Array.get ⟨j, hj⟩).typeOf) : i = j := by
  have h1 := hwf.2 i hi
  have h2 := hwf.2 j hj
  rw [heq] at h1
  rw [h1] at h2
  exact Option.some.inj h2

/-- C10: `Add` keeps the collection well formed — the map always points at
the matching array entry; the collection holds at most one payload per
type; `Get` returns the payload just added (the most recent of its type);
`Add` on a present type replaces in place (same array length) and on an
absent type appends. -/
theorem C10_payloads_unique_by_type (p : Payloads) (t : Payload)
    (hwf : PayloadsWF p) :
    PayloadsWF (p.Add t)
    ∧ (p.Add t).Get t.typeOf = some t
    ∧ (∀ i j (hi : i < (p.Add t).Array.length) (hj : j < (p.Add t).Array.length),
        ((p.Add t).Array.get ⟨i, hi⟩).typeOf = ((p.Add t).Array.get ⟨j, hj⟩).typeOf → i = j)
    ∧ (∀ idx, p.Map t.typeOf = some idx → (p.Add t).Array = p.Array.set idx t)
    ∧ (p.Map t.typeOf = none → (p.Add t).Array = p.Array ++ [t]) := by
  have main : PayloadsWF (p.Add t) ∧ (p.Add t).Get t.typeOf = some t := by
    rcases hm : p.Map t.typeOf with _ | idx
    · -- absent: append
      simp only [Payloads.Add, hm]
      constructor
      · constructor
        · intro u i hu
          simp only [] at hu
          by_cases hut : u = t.typeOf
          · subst hut
            rw [if_pos rfl] at hu
            have hi : i = p.Array.length := (Option.some.inj hu).symm
            subst hi
            refine ⟨by simp, ?_⟩
            simp only [List.get_eq_getElem]
            rw [List.getElem_concat_length _ _ _ rfl]
          · rw [if_neg hut] at hu
            obtain ⟨hi, hty⟩ := hwf.1 u i hu
            refine ⟨by simp; omega, ?_⟩
            simp only [List.get_eq_getElem]
            rw [List.getElem_append_left hi]
            exact hty
        · intro i h
          simp only [List.length_append, List.length_cons, List.length_nil] at h
          by_cases hi : i < p.Array.length
          · simp only [List.get_eq_getElem]
            rw [List.getElem_append_left hi]
            have hne : (p.Array[i]).typeOf ≠ t.typeOf := by
              intro hcon
              have := hwf.2 i hi
              simp only [List.get_eq_getElem] at this
              rw [hcon, hm] at this
              exact Option.noConfusion this
            simp only [if_neg hne]
            have h2 := hwf.2 i hi
            simpa only [List.get_eq_getElem] using h2
          · have hieq : i = p.Array.length := by omega
            subst hieq
            simp only [List.get_eq_getElem]
            rw [List.getElem_concat_length _ _ _ rfl]
            simp
      · simp only [Payloads.Get, if_pos rfl]
        exact List.getElem?_concat_length _ _
    · -- present: replace in place
      simp only [Payloads.Add, hm]
      obtain ⟨hidx, htyx⟩ := hwf.1 t.typeOf idx hm
      constructor
      · constructor
        · intro u i hu
          simp only [] at hu
          by_cases hii : idx = i
          · subst hii
            have : u = t.typeOf := by
              obtain ⟨_, hty2⟩ := hwf.1 u idx hu
              rw [← hty2, htyx]
            subst this
            refine ⟨by simp [List.length_set]; omega, ?_⟩
            simp only [List.get_eq_getElem]
            rw [List.getElem_set_self]
          · obtain ⟨hi, hty⟩ := hwf.1 u i hu
            refine ⟨by simp [List.length_set]; omega, ?_⟩
            simp only [List.get_eq_getElem]
            rw [List.getElem_set_ne hii]
            exact hty
        · intro i h
          simp only [List.length_set] at h
          by_cases hii : idx = i
          · subst hii
            simp only [List.get_eq_getElem]
            rw [List.getElem_set_self]
            exact hm
          · simp only [List.get_eq_getElem]
            rw [List.getElem_set_ne hii]
            exact hwf.2 i h
      · simp only [Payloads.Get, hm]
        exact List.getElem?_set_self hidx
  refine ⟨main.1, main.2, fun i j hi hj => main.1.distinct i j hi hj, ?_, ?_⟩
  · intro idx hm
    simp [Payloads.Add, hm]
  · intro hm
    simp [Payloads.Add, hm]

def noncePayloadA : Payload :=
  .nonce { NextPayload := 0, IsCritical := false, PayloadLength := 20 } 5

def noncePayloadB : Payload :=
  .nonce { NextPayload := 0, IsCritical := false, PayloadLength := 20 } 7

/-- C10 witness: adding two nonce payloads (same type 40) to the empty
collection replaces in place and `Get` returns the most recently added
one. -/
theorem C10_witness :
    ((makePayloads.Add noncePayloadA).Add noncePayloadB).Get 40 = some noncePayloadB :=
  (C10_payloads_unique_by_type (makePayloads.Add noncePayloadA) noncePayloadB
    (C10_payloads_unique_by_type makePayloads noncePayloadA payloadsWF_empty).1).2.1

/-! ## C1: the round-trip law -/

/-- Canonicity checker for the amended round-trip law.  It mirrors
`decodeChain` branch for branch and additionally demands what byte-exact
re-encoding requires: the reserved byte after each payload's NextPayload is
zero (the encoder always writes 0), each payload body is a fixed point of
its payload codec (`encodeBody (decode body) = body` — lost e.g. by a Nonce
or KE body with a leading zero octet, which `big.Int` cannot represent),
and the chain consumes the payload area exactly. -/
def chainCanonical : Nat → Nat → List Nat → Bool
  | 0, _, _ => false
  | fuel+1, nextPayload, b =>
    if nextPayload = 0 then b.isEmpty
    else if b.length < PAYLOAD_HEADER_LENGTH then false
    else
      match PayloadHeader.Decode (b.take PAYLOAD_HEADER_LENGTH) with
      | .error _ => false
      | .ok ph =>
        if ph.PayloadLength < PAYLOAD_HEADER_LENGTH ∨ b.length < ph.PayloadLength then
          false
        else
          match decodePayloadBody nextPayload ph
              ((b.take ph.PayloadLength).drop PAYLOAD_HEADER_LENGTH) with
          | .error _ => false
          | .ok payload =>
            (b.getD 1 0 == 0)
            && (payload.encodeBody == (b.take ph.PayloadLength).drop PAYLOAD_HEADER_LENGTH)
            && chainCanonical fuel ph.NextPayload (b.drop ph.PayloadLength)

/-- Canonicity of a whole non-SK wire buffer: header accepted, not
SK-wrapped, buffer exactly `MsgLength` long, and the payload chain
canonical. -/
def messageCanonical (w : List Nat) : Bool :=
  match DecodeIkeHeader w with
  | .error _ => false
  | .ok hdr =>
    hdr.NextPayload != 46 && w.length == hdr.MsgLength
    && chainCanonical ((w.drop IKE_HEADER_LEN).length + 1) hdr.NextPayload
        (w.drop IKE_HEADER_LEN)

theorem exceptMap_ok {α β : Type} {f : α → β} {x : Except CodecErr α} {b : β}
    (h : x.map f = .ok b) : ∃ a, x = .ok a ∧ f a = b := by
  cases x with
  | error e => exact absurd h (by simp [Except.map])
  | ok a => exact ⟨a, rfl, by simpa [Except.map] using h⟩

/-- Every decoded payload stores the generic header it was decoded under. -/
theorem decodePayloadBody_header (np : Nat) (ph : PayloadHeader) (b : List Nat)
    (p : Payload) (h : decodePayloadBody np ph b = .ok p) : p.header = ph := by
  rw [decodePayloadBody] at h
  by_cases h33 : (np == 33) = true
  · rw [if_pos h33] at h
    obtain ⟨a, _, hfa⟩ := exceptMap_ok h
    subst hfa
    rfl
  · rw [if_neg h33] at h
    by_cases h34 : (np == 34) = true
    · rw [if_pos h34] at h
      obtain ⟨a, _, hfa⟩ := exceptMap_ok h
      subst hfa
      rfl
    · rw [if_neg h34] at h
      by_cases h35 : (np == 35) = true
      · rw [if_pos h35] at h
        obtain ⟨a, _, hfa⟩ := exceptMap_ok h
        subst hfa
        rfl
      · rw [if_neg h35] at h
        by_cases h36 : (np == 36) = true
        · rw [if_pos h36] at h
          obtain ⟨a, _, hfa⟩ := exceptMap_ok h
          subst hfa
          rfl
        · rw [if_neg h36] at h
          by_cases h37 : (np == 37) = true
          · rw [if_pos h37] at h
            cases h
            rfl
          · rw [if_neg h37] at h
            by_cases h38 : (np == 38) = true
            · rw [if_pos h38] at h
              cases h
              rfl
            · rw [if_neg h38] at h
              by_cases h39 : (np == 39) = true
              · rw [if_pos h39] at h
                obtain ⟨a, _, hfa⟩ := exceptMap_ok h
                subst hfa
                rfl
              · rw [if_neg h39] at h
                by_cases h40 : (np == 40) = true
                · rw [if_pos h40] at h
                  obtain ⟨a, _, hfa⟩ := exceptMap_ok h
                  subst hfa
                  rfl
                · rw [if_neg h40] at h
                  by_cases h41 : (np == 41) = true
                  · rw [if_pos h41] at h
                    obtain ⟨a, _, hfa⟩ := exceptMap_ok h
                    subst hfa
                    rfl
                  · rw [if_neg h41] at h
                    by_cases h42 : (np == 42) = true
                    · rw [if_pos h42] at h
                      cases h
                      rfl
                    · rw [if_neg h42] at h
                      by_cases h43 : (np == 43) = true
                      · rw [if_pos h43] at h
                        cases h
                        rfl
                      · rw [if_neg h43] at h
                        by_cases h44 : (np == 44) = true
                        · rw [if_pos h44] at h
                          obtain ⟨a, _, hfa⟩ := exceptMap_ok h
                          subst hfa
                          rfl
                        · rw [if_neg h44] at h
                          by_cases h45 : (np == 45) = true
                          · rw [if_pos h45] at h
                            obtain ⟨a, _, hfa⟩ := exceptMap_ok h
                            subst hfa
                            rfl
                          · rw [if_neg h45] at h
                            by_cases h47 : (np == 47) = true
                            · rw [if_pos h47] at h
                              cases h
                              rfl
                            · rw [if_neg h47] at h
                              by_cases h48 : (np == 48) = true
                              · rw [if_pos h48] at h
                                cases h
                                rfl
                              · rw [if_neg h48] at h
                                exact Except.noConfusion h

theorem encodeChainList_nil : encodeChainList [] = [] := rfl

theorem encodeChainList_cons (p : Payload) (l : List Payload) :
    encodeChainList (p :: l) =
      encodePayloadHeader p.NextPayloadType p.encodeBody.length ++
      (p.encodeBody ++ encodeChainList l) := by
  simp [encodeChainList]

/-- Lockstep induction for the amended round-trip law: a decoded canonical
chain consumed the buffer exactly and re-encodes to it byte for byte. -/
theorem chain_roundtrip : ∀ (fuel np : Nat) (b : List Nat) (l : List Payload)
    (rest : List Nat),
    (∀ x ∈ b, x < 256) →
    decodeChain fuel np b = .ok (l, rest) →
    chainCanonical fuel np b = true →
    rest = [] ∧ encodeChainList l = b := by
  intro fuel
  induction fuel with
  | zero =>
    intro np b l rest _ hdec _
    exact Except.noConfusion hdec
  | succ fuel ih =>
    intro np b l rest hbytes hdec hcanon
    rw [decodeChain] at hdec
    rw [chainCanonical] at hcanon
    by_cases hnp : np = 0
    · rw [if_pos hnp] at hdec hcanon
      obtain ⟨hl, hrest⟩ : [] = l ∧ b = rest := by
        have := Prod.mk.injEq .. ▸ (Except.ok.inj hdec)
        exact ⟨this.1, this.2⟩
      subst hl
      subst hrest
      have hb : b = [] := List.isEmpty_iff.mp hcanon
      exact ⟨hb, by rw [hb]; rfl⟩
    · rw [if_neg hnp] at hdec hcanon
      by_cases hlen : b.length < PAYLOAD_HEADER_LENGTH
      · rw [if_pos hlen] at hdec
        exact Except.noConfusion hdec
      · rw [if_neg hlen] at hdec hcanon
        have hph : PayloadHeader.Decode (b.take PAYLOAD_HEADER_LENGTH) = .ok
            { NextPayload := readB8 (b.take PAYLOAD_HEADER_LENGTH) 0
              IsCritical := readB8 (b.take PAYLOAD_HEADER_LENGTH) 1 &&& 128 == 1
              PayloadLength := readB16 (b.take PAYLOAD_HEADER_LENGTH) 2 } := by
          rw [PayloadHeader.Decode,
            if_neg (by
              rw [List.length_take]
              simp only [PAYLOAD_HEADER_LENGTH] at hlen ⊢
              omega)]
        rw [hph] at hdec hcanon
        simp only [] at hdec hcanon
        set pl := readB16 (b.take PAYLOAD_HEADER_LENGTH) 2 with hpl
        by_cases hbound : pl < PAYLOAD_HEADER_LENGTH ∨ b.length < pl
        · rw [if_pos hbound] at hdec
          exact Except.noConfusion hdec
        · rw [if_neg hbound] at hdec hcanon
          rcases hbody : decodePayloadBody np
              { NextPayload := readB8 (b.take PAYLOAD_HEADER_LENGTH) 0
                IsCritical := readB8 (b.take PAYLOAD_HEADER_LENGTH) 1 &&& 128 == 1
                PayloadLength := pl }
              ((b.take pl).drop PAYLOAD_HEADER_LENGTH) with e | payload
          · rw [hbody] at hdec
            exact Except.noConfusion hdec
          · rw [hbody] at hdec hcanon
            simp only [] at hdec hcanon
            rcases hrec : decodeChain fuel (readB8 (b.take PAYLOAD_HEADER_LENGTH) 0)
                (b.drop pl) with e | lr
            · rw [hrec] at hdec
              exact Except.noConfusion hdec
            · rw [hrec] at hdec
              simp only [] at hdec
              obtain ⟨hl, hrest⟩ : payload :: lr.1 = l ∧ lr.2 = rest := by
                have := Prod.mk.injEq .. ▸ (Except.ok.inj hdec)
                exact ⟨this.1, this.2⟩
              subst hl
              subst hrest
              simp only [Bool.and_eq_true, beq_iff_eq] at hcanon
              obtain ⟨⟨hres0, hbody0⟩, hrecC⟩ := hcanon
              have hb4 : 4 ≤ b.length := by
                simp only [PAYLOAD_HEADER_LENGTH] at hlen; omega
              have hpl4 : 4 ≤ pl ∧ pl ≤ b.length := by
                simp only [PAYLOAD_HEADER_LENGTH, not_or, Nat.not_lt] at hbound
                omega
              have hbytes' : ∀ x ∈ b.drop pl, x < 256 :=
                fun x hx => hbytes x (List.mem_of_mem_drop hx)
              obtain ⟨hr0, henc⟩ := ih _ _ _ _ hbytes' hrec hrecC
              refine ⟨hr0, ?_⟩
              rw [encodeChainList_cons]
              have hhdr := decodePayloadBody_header _ _ _ _ hbody
              have hnext : payload.NextPayloadType =
                  readB8 (b.take PAYLOAD_HEADER_LENGTH) 0 := by
                rw [Payload.NextPayloadType, hhdr]
              have hg0 : readB8 (b.take PAYLOAD_HEADER_LENGTH) 0 = b.getD 0 0 := by
                rw [readB8]
                exact getD_take b PAYLOAD_HEADER_LENGTH 0 (by simp [PAYLOAD_HEADER_LENGTH])
              have hg23 : pl = b.getD 2 0 * 256 + b.getD 3 0 := by
                rw [hpl, readB16, getD_take b PAYLOAD_HEADER_LENGTH 2
                  (by simp [PAYLOAD_HEADER_LENGTH]), getD_take b PAYLOAD_HEADER_LENGTH 3
                  (by simp [PAYLOAD_HEADER_LENGTH])]
              have hbodylen : payload.encodeBody.length = pl - 4 := by
                rw [hbody0, List.length_drop, List.length_take,
                  PAYLOAD_HEADER_LENGTH]
                omega
              have hEPH : encodePayloadHeader payload.NextPayloadType
                  payload.encodeBody.length = [b.getD 0 0, b.getD 1 0, b.getD 2 0,
                    b.getD 3 0] := by
                rw [encodePayloadHeader, hbodylen, hnext, hg0, hres0,
                  Nat.mod_eq_of_lt (getD_lt_256 b hbytes 0),
                  show pl - 4 + 4 = pl by omega, natB16]
                have h2 := getD_lt_256 b hbytes 2
                have h3 := getD_lt_256 b hbytes 3
                have e1 : pl / 256 % 256 = b.getD 2 0 := by omega
                have e2 : pl % 256 = b.getD 3 0 := by omega
                rw [e1, e2]
              rw [hEPH, hbody0, henc, ← take4_eq b hb4,
                show b.take 4 = (b.take pl).take 4 by
                  rw [List.take_take, Nat.min_eq_left hpl4.1],
                show (PAYLOAD_HEADER_LENGTH : Nat) = 4 from rfl,
                ← List.append_assoc, List.take_append_drop, List.take_append_drop]

/-- Folding `Add` over payloads of pairwise distinct types appends them in
order. -/
theorem addAll_array (l : List Payload) : ∀ (p : Payloads),
    (∀ x ∈ l, p.Map x.typeOf = none) → (l.map Payload.typeOf).Nodup →
    (l.foldl Payloads.Add p).Array = p.Array ++ l := by
  induction l with
  | nil => intro p _ _; simp
  | cons x xs ih =>
    intro p hnone hdup
    simp only [List.foldl_cons]
    have hx : p.Map x.typeOf = none := hnone x (by simp)
    have hAddA : (p.Add x).Array = p.Array ++ [x] := by
      simp [Payloads.Add, hx]
    have hAddM : (p.Add x).Map =
        fun u => if u = x.typeOf then some p.Array.length else p.Map u := by
      simp [Payloads.Add, hx]
    have hdup' : (∀ y ∈ xs, ¬ Payload.typeOf y = Payload.typeOf x)
        ∧ (xs.map Payload.typeOf).Nodup := by simpa using hdup
    have h2 : ∀ y ∈ xs, (p.Add x).Map y.typeOf = none := by
      intro y hy
      rw [hAddM]
      simp only []
      rw [if_neg (hdup'.1 y hy)]
      exact hnone y (by simp [hy])
    rw [ih (p.Add x) h2 hdup'.2, hAddA, List.append_assoc]
    rfl

theorem payloadsOfList_array (l : List Payload)
    (hdup : (l.map Payload.typeOf).Nodup) : (payloadsOfList l).Array = l := by
  rw [payloadsOfList, addAll_array l makePayloads (fun x _ => rfl) hdup]
  rfl

theorem take4_drop (w : List Nat) (n : Nat) (h : n + 4 ≤ w.length) :
    (w.drop n).take 4 =
      [w.getD n 0, w.getD (n+1) 0, w.getD (n+2) 0, w.getD (n+3) 0] := by
  rw [take4_eq (w.drop n) (by rw [List.length_drop]; omega)]
  simp [getD_drop]

theorem natB32_readB32 (w : List Nat) (i : Nat) (hb : ∀ x ∈ w, x < 256) :
    natB32 (readB32 w i) =
      [w.getD i 0, w.getD (i+1) 0, w.getD (i+2) 0, w.getD (i+3) 0] := by
  have h0 := getD_lt_256 w hb i
  have h1 := getD_lt_256 w hb (i+1)
  have h2 := getD_lt_256 w hb (i+2)
  have h3 := getD_lt_256 w hb (i+3)
  rw [readB32, natB32]
  have e0 : (((w.getD i 0 * 256 + w.getD (i+1) 0) * 256 + w.getD (i+2) 0) * 256 +
      w.getD (i+3) 0) / 16777216 % 256 = w.getD i 0 := by omega
  have e1 : (((w.getD i 0 * 256 + w.getD (i+1) 0) * 256 + w.getD (i+2) 0) * 256 +
      w.getD (i+3) 0) / 65536 % 256 = w.getD (i+1) 0 := by omega
  have e2 : (((w.getD i 0 * 256 + w.getD (i+1) 0) * 256 + w.getD (i+2) 0) * 256 +
      w.getD (i+3) 0) / 256 % 256 = w.getD (i+2) 0 := by omega
  have e3 : (((w.getD i 0 * 256 + w.getD (i+1) 0) * 256 + w.getD (i+2) 0) * 256 +
      w.getD (i+3) 0) % 256 = w.getD (i+3) 0 := by omega
  rw [e0, e1, e2, e3]

theorem readB32_lt (w : List Nat) (i : Nat) (hb : ∀ x ∈ w, x < 256) :
    readB32 w i < 4294967296 := by
  have h0 := getD_lt_256 w hb i
  have h1 := getD_lt_256 w hb (i+1)
  have h2 := getD_lt_256 w hb (i+2)
  have h3 := getD_lt_256 w hb (i+3)
  rw [readB32]
  omega

/-- The 28-byte prefix of a buffer decomposes into the pieces written by
`IkeHeader.Encode`. -/
theorem take28_decomp (w : List Nat) (h28 : 28 ≤ w.length) :
    w.take 28 = w.take 8 ++ ((w.drop 8).take 8 ++
      ([w.getD 16 0, w.getD 17 0, w.getD 18 0, w.getD 19 0] ++
       ([w.getD 20 0, w.getD 21 0, w.getD 22 0, w.getD 23 0] ++
        [w.getD 24 0, w.getD 25 0, w.getD 26 0, w.getD 27 0]))) := by
  have s1 : w.take 28 = w.take 8 ++ (w.drop 8).take 20 := List.take_add w 8 20
  have s2 : (w.drop 8).take 20 = (w.drop 8).take 8 ++ (w.drop 16).take 12 := by
    have := List.take_add (w.drop 8) 8 12
    rwa [List.drop_drop] at this
  have s3 : (w.drop 16).take 12 = (w.drop 16).take 4 ++ (w.drop 20).take 8 := by
    have := List.take_add (w.drop 16) 4 8
    rwa [List.drop_drop] at this
  have s4 : (w.drop 20).take 8 = (w.drop 20).take 4 ++ (w.drop 24).take 4 := by
    have := List.take_add (w.drop 20) 4 4
    rwa [List.drop_drop] at this
  rw [s1, s2, s3, s4, take4_drop w 16 (by omega), take4_drop w 20 (by omega),
    take4_drop w 24 (by omega)]

/-- Re-encoding the header parsed by `DecodeIkeHeader` (with any MsgLength
value `ml < 2^32` substituted) reproduces the first 28 bytes whenever
`natB32 ml` equals the original length bytes. -/
theorem header_reencode (w : List Nat) (hbytes : ∀ x ∈ w, x < 256)
    (h28 : 28 ≤ w.length) (ml : Nat)
    (hml : natB32 ml = [w.getD 24 0, w.getD 25 0, w.getD 26 0, w.getD 27 0]) :
    ({ SpiI := w.take 8, SpiR := (w.drop 8).take 8,
       NextPayload := readB8 w 16,
       MajorVersion := readB8 w 17 / 16, MinorVersion := readB8 w 17 % 16,
       ExchangeType := readB8 w 18, Flags := readB8 w 19,
       MsgId := readB32 w 20, MsgLength := ml } : IkeHeader).Encode =
    w.take 28 := by
  have b16 := getD_lt_256 w hbytes 16
  have b17 := getD_lt_256 w hbytes 17
  have b18 := getD_lt_256 w hbytes 18
  have b19 := getD_lt_256 w hbytes 19
  have l8 : (w.take 8).length = 8 := by rw [List.length_take]; omega
  have l8R : ((w.drop 8).take 8).length = 8 := by
    rw [List.length_take, List.length_drop]; omega
  rw [IkeHeader.Encode]
  simp only [readB8, l8, l8R, Nat.sub_self, List.replicate_zero, List.append_nil]
  have e1 : (w.take 8).take 8 = w.take 8 := by
    simp [List.take_take]
  have e2 : ((w.drop 8).take 8).take 8 = (w.drop 8).take 8 := by
    simp [List.take_take]
  have e16 : w.getD 16 0 % 256 = w.getD 16 0 := by omega
  have e17 : (w.getD 17 0 / 16 * 16 + w.getD 17 0 % 16) % 256 = w.getD 17 0 := by omega
  have e18 : w.getD 18 0 % 256 = w.getD 18 0 := by omega
  have e19 : w.getD 19 0 % 256 = w.getD 19 0 := by omega
  rw [e1, e2, e16, e17, e18, e19, natB32_readB32 w 20 hbytes, hml,
    take28_decomp w h28]
  simp [List.append_assoc]

theorem decodeIkeHeader_ok {w : List Nat} {hdr : IkeHeader}
    (h : DecodeIkeHeader w = .ok hdr) :
    28 ≤ w.length ∧ 28 ≤ readB32 w 24 ∧
    hdr = { SpiI := w.take 8, SpiR := (w.drop 8).take 8,
            NextPayload := readB8 w 16,
            MajorVersion := readB8 w 17 / 16, MinorVersion := readB8 w 17 % 16,
            ExchangeType := readB8 w 18, Flags := readB8 w 19,
            MsgId := readB32 w 20, MsgLength := readB32 w 24 } := by
  rw [DecodeIkeHeader] at h
  by_cases h1 : w.length < IKE_HEADER_LEN
  · rw [if_pos h1] at h
    exact Except.noConfusion h
  · rw [if_neg h1] at h
    simp only [] at h
    by_cases h2 : readB32 w 24 < IKE_HEADER_LEN
    · rw [if_pos h2] at h
      exact Except.noConfusion h
    · rw [if_neg h2] at h
      simp only [IKE_HEADER_LEN] at h1 h2
      exact ⟨by omega, by omega, (Except.ok.inj h).symm⟩

/-- C1 (amended): for every valid non-SK wire buffer that is canonical —
exactly `MsgLength` bytes long, payload chain consuming the payload area
exactly, reserved payload-header bytes zero, every payload body a fixed
point of its codec, and no repeated payload type — re-encoding the decoded
message reproduces the buffer byte for byte. -/
theorem C1_roundtrip_canonical (w : List Nat) (hdr : IkeHeader) (l : List Payload)
    (rest : List Nat)
    (hbytes : ∀ x ∈ w, x < 256)
    (hdec : decodeMessageFull w none = .ok (hdr, l, rest))
    (hcanon : messageCanonical w = true)
    (hdup : (l.map Payload.typeOf).Nodup) :
    Message.Encode hdr (payloadsOfList l) none [] = .ok w := by
  rcases hH : DecodeIkeHeader w with e | hdr0
  · rw [decodeMessageFull, hH] at hdec
    exact Except.noConfusion hdec
  obtain ⟨h28, hm28, hhdr0⟩ := decodeIkeHeader_ok hH
  rw [messageCanonical, hH] at hcanon
  simp only [Bool.and_eq_true, bne_iff_ne, beq_iff_eq, ne_eq] at hcanon
  obtain ⟨⟨hnp46, hlenEq⟩, hchainC⟩ := hcanon
  rw [decodeMessageFull, hH] at hdec
  simp only [] at hdec
  rw [if_neg (by omega : ¬ w.length < hdr0.MsgLength)] at hdec
  rw [if_neg (by rw [hhdr0]; simp only [IKE_HEADER_LEN]; omega :
    ¬ hdr0.MsgLength < IKE_HEADER_LEN)] at hdec
  rw [if_neg hnp46] at hdec
  have htakeml : w.take hdr0.MsgLength = w :=
    List.take_of_length_le (by omega)
  rw [htakeml] at hdec
  rcases hchain : decodeChain ((w.drop IKE_HEADER_LEN).length + 1) hdr0.NextPayload
      (w.drop IKE_HEADER_LEN) with e | ⟨l', rest'⟩
  · rw [hchain] at hdec
    exact Except.noConfusion hdec
  · rw [hchain] at hdec
    simp only [] at hdec
    obtain ⟨hh, hl, hr⟩ : hdr0 = hdr ∧ l' = l ∧ rest' = rest := by
      have h1 := Prod.mk.injEq .. ▸ (Except.ok.inj hdec)
      have h2 := Prod.mk.injEq .. ▸ h1.2
      exact ⟨h1.1, h2.1, h2.2⟩
    have hbytes' : ∀ x ∈ w.drop IKE_HEADER_LEN, x < 256 :=
      fun x hx => hbytes x (List.mem_of_mem_drop hx)
    obtain ⟨hrest0, henc⟩ := chain_roundtrip _ _ _ l rest hbytes'
      (by rw [← hl, ← hr]; exact hchain) hchainC
    -- the encode side
    rw [Message.Encode]
    rw [if_neg (by rw [← hh, hhdr0]; rw [hhdr0] at hnp46; exact hnp46 :
      ¬ hdr.NextPayload = 46)]
    have harr : encodePayloads (payloadsOfList l) = encodeChainList l := by
      rw [encodePayloads, payloadsOfList_array l hdup]
    rw [harr, henc]
    have hlen' : (w.drop IKE_HEADER_LEN).length + IKE_HEADER_LEN = w.length := by
      rw [List.length_drop]
      simp only [IKE_HEADER_LEN]
      omega
    have hwlt : w.length < 4294967296 := by
      rw [hlenEq, hhdr0]
      exact readB32_lt w 24 hbytes
    have hmod : ((w.drop IKE_HEADER_LEN).length + IKE_HEADER_LEN) % 4294967296 =
        w.length := by
      rw [hlen']
      exact Nat.mod_eq_of_lt hwlt
    simp only []
    rw [hmod]
    have hfin : ({ hdr with MsgLength := w.length } : IkeHeader).Encode =
        w.take 28 := by
      rw [← hh, hhdr0]
      exact header_reencode w hbytes h28 w.length
        (by rw [show w.length = readB32 w 24 by rw [hlenEq, hhdr0]]
            exact natB32_readB32 w 24 hbytes)
    rw [hfin]
    rw [show (IKE_HEADER_LEN : Nat) = 28 from rfl, List.take_append_drop]

/-- Does the decoder accept the buffer (header and payloads, no error)? -/
def decodeAccepts (w : List Nat) (tkm : Option Tkm) : Bool :=
  match decodeMessageFull w tkm with
  | .ok _ => true
  | .error _ => false

/-- Decode a non-SK message and re-encode it with `Message.Encode`. -/
def roundTripNonSK (w : List Nat) : Option (List Nat) :=
  match decodeMessage w none with
  | .ok (hdr, pls) =>
    match Message.Encode hdr pls none [] with
    | .ok b => some b
    | .error _ => none
  | .error _ => none

/-- A valid 48-byte IKE_SA_INIT message whose single Nonce payload's data
begins with a zero octet. -/
def wNonceZero : List Nat :=
  [1,2,3,4,5,6,7,8, 0,0,0,0,0,0,0,0, 40, 32, 34, 8, 0,0,0,0, 0,0,0,48] ++
  [0, 0, 0, 20] ++ [0,1,2,3,4,5,6,7,8,9,10,11,12,13,14,15]

/-- C1 counterexample: `wNonceZero` is accepted by `DecodeIkeHeader` and
`DecodePayloads` without error, yet re-encoding the decoded message does
not reproduce it — the nonce is stored as a `big.Int` and re-encodes
without its leading zero octet, shortening the message to 47 bytes. -/
theorem C1_counterexample :
    decodeAccepts wNonceZero none = true ∧ roundTripNonSK wNonceZero ≠ some wNonceZero := by
  refine ⟨rfl, ?_⟩
  decide

/-- The same message with a nonce free of leading zeros (canonical). -/
def wNonceGood : List Nat :=
  [1,2,3,4,5,6,7,8, 0,0,0,0,0,0,0,0, 40, 32, 34, 8, 0,0,0,0, 0,0,0,48] ++
  [0, 0, 0, 20] ++ [1,2,3,4,5,6,7,8,9,10,11,12,13,14,15,16]

/-- C1 witness: re-encoding the decoded canonical message reproduces
`wNonceGood` byte for byte. -/
theorem C1_witness :
    Message.Encode
      { SpiI := [1,2,3,4,5,6,7,8], SpiR := [0,0,0,0,0,0,0,0], NextPayload := 40,
        MajorVersion := 2, MinorVersion := 0, ExchangeType := 34, Flags := 8,
        MsgId := 0, MsgLength := 48 }
      (payloadsOfList [.nonce (PayloadHeader.mk 0 false 20)
        (bytesToNat [1,2,3,4,5,6,7,8,9,10,11,12,13,14,15,16])])
      none [] = .ok wNonceGood :=
  C1_roundtrip_canonical wNonceGood _ _ [] (by decide) rfl rfl (by decide)
